import Mathlib

/-!
Shallow embedding of `src/Table.py` (document_db_lite).

The Python module maps hierarchical record dictionaries onto rows of an
SQLite table.  We model the backing store as an association list from
table name to a `TableData` (column schema plus row list), and every
`Table` method as a pure Lean function over that state.  SQLite
statements built by the source are modelled by their execution
semantics on this store (the store executes well-formed statements; the
quoting bugs of raw string concatenation are outside this model, which
assumes literal values reach the store intact).  Functions whose Python
counterparts recurse through the record tree or through manifest
references take an explicit fuel argument; exhausting fuel yields the
distinguished error `DbErr.fuelExhausted`, which no Python exception
corresponds to.
-/

/-- SQLite storage values.  `Table.valid_types` (Table.py:20) admits
INTEGER/int, REAL/float, TEXT/str, BLOB/bytes; `vNull` stands for SQL
NULL (an unset column, e.g. the field columns of the metadata row). -/
inductive Value where
  | vNull : Value
  | vInt : Int → Value
  | vReal : ℚ → Value
  | vText : String → Value
  | vBlob : List UInt8 → Value
deriving DecidableEq, Repr

/-- Errors.  `invalidRecord` models `InvalidRecordError` (Table.py:6),
`tableNotFound` models `TableNotFoundError` (Table.py:12), `valueError`
the `ValueError` of `__init__` (Table.py:49), `operational` an sqlite3
error for a statement against a missing table, `typeError` the Python
`TypeError` of comparing None with int (Table.py:168 on an empty
table), `indexError` the `IndexError` of `s[0]` on an empty string
(Table.py:524).  `fuelExhausted` is an artifact of bounded modelling. -/
inductive DbErr where
  | invalidRecord : String → DbErr
  | tableNotFound : String → DbErr
  | valueError : String → DbErr
  | operational : String → DbErr
  | typeError : DbErr
  | indexError : DbErr
  | fuelExhausted : DbErr
deriving DecidableEq, Repr

/-- A record dictionary (Table.py:385-388): an `id`, the field-name to
value entries, and the `subrecords` mapping from child-table name to a
list of child records.  Python dict keys are unique and ordered by
insertion; we embed the dicts as association lists. -/
inductive Record where
  | mk : Int → List (String × Value) → List (String × List Record) → Record

/-- The `id` entry of a record. -/
def Record.rid : Record → Int
  | .mk i _ _ => i

/-- The field entries of a record (all keys except `id`/`subrecords`). -/
def Record.rfields : Record → List (String × Value)
  | .mk _ f _ => f

/-- The `subrecords` entry of a record. -/
def Record.subs : Record → List (String × List Record)
  | .mk _ _ s => s

/-- The serialized `subrecords` column content (Table.py:298-316): per
child table, the ordered list of the child records' ids only. -/
def manifestOf (subs : List (String × List Record)) : List (String × List Int) :=
  subs.map (fun p => (p.1, p.2.map Record.rid))

/-- A stored row: primary key `id`, the set field columns, and the
parsed content of the `subrecords` TEXT column. -/
structure Row where
  rid : Int
  vals : List (String × Value)
  manifest : List (String × List Int)
deriving DecidableEq, Repr

/-- One relation of the backing store: its field columns (name and
declared type, excluding the implicit `id` and `subrecords` columns)
and its rows in backing order. -/
structure TableData where
  cols : List (String × String)
  rows : List Row
deriving DecidableEq, Repr

/-- The backing database: named relations. -/
abbrev Db := List (String × TableData)

/-- A `Table` handle (Table.py:22-59): name, `_fields`, `_subtables`,
and the mutable `_max_id` cache. -/
structure Table where
  name : String
  tfields : List (String × String)
  subtables : List String
  maxId : Int
deriving DecidableEq, Repr

/-- Lookup in an association list by key (Python dict access). -/
def alookup {α : Type} : List (String × α) → String → Option α
  | [], _ => none
  | (k, v) :: rest, n => if k = n then some v else alookup rest n

/-- Replace the data of relation `n`. -/
def dbSet : Db → String → TableData → Db
  | [], _, _ => []
  | (k, v) :: rest, n, td =>
    if k = n then (n, td) :: dbSet rest n td else (k, v) :: dbSet rest n td

/-- The row of relation `n` with id `i` (first match, as `fetchone`). -/
def rowAt (db : Db) (n : String) (i : Int) : Option Row :=
  match alookup db n with
  | none => none
  | some td => td.rows.find? (fun r => r.rid == i)

/-- ASCII upper-casing of one character, as Python `str.upper` acts on
the ASCII type names appearing here. -/
def asciiUpperChar (c : Char) : Char :=
  if 'a' ≤ c ∧ c ≤ 'z' then Char.ofNat (c.toNat - 32) else c

/-- Python `str.upper` restricted to ASCII. -/
def pyUpper (s : String) : String := ⟨s.data.map asciiUpperChar⟩

/-- Membership in `Table.valid_types` (Table.py:20). -/
def validTypeName (ty : String) : Bool :=
  ty == "INTEGER" || ty == "REAL" || ty == "TEXT" || ty == "BLOB"

/-- `isinstance(record[field], Table.valid_types[self._fields[field]])`
(Table.py:426): the runtime value matches the declared storage type. -/
def typeMatches (ty : String) : Value → Bool
  | .vInt _ => ty == "INTEGER"
  | .vReal _ => ty == "REAL"
  | .vText _ => ty == "TEXT"
  | .vBlob _ => ty == "BLOB"
  | .vNull => false

/-- `Table._create_self` (Table.py:65-96): if no relation of this name
exists, create it with the declared field columns plus `subrecords`,
and insert the id-0 metadata row whose manifest keys are the declared
subtable names, each with an empty id list. -/
def createSelf (db : Db) (t : Table) : Db :=
  match alookup db t.name with
  | some _ => db
  | none => db ++ [(t.name, ⟨t.tfields, [⟨0, [], t.subtables.map (fun s => (s, []))⟩]⟩)]

/-- `Table.__init__` (Table.py:22-59): upper-case and check every
declared field type against `valid_types` (ValueError otherwise), set
`_max_id = 0`, then `_create_self`. -/
def Table.create (db : Db) (nm : String) (fieldsAndTypes : List (String × String)) (subtables : List String) : Except DbErr (Table × Db) :=
  let fts := fieldsAndTypes.map (fun p => (p.1, pyUpper p.2))
  if fts.all (fun p => validTypeName p.2) then
    let t : Table := ⟨nm, fts, subtables, 0⟩
    .ok (t, createSelf db t)
  else .error (.valueError "The type of an SQLite field must be one of INTEGER, REAL, TEXT, BLOB")

/-- `Table.get_table` (Table.py:98-153): introspect the columns of the
named relation (TableNotFoundError if absent), read the id-0 row's
manifest keys as the subtable names (none if no id-0 row), and build a
fresh handle through `__init__` (whose `_create_self` is a no-op since
the relation exists).  The path/file check of the Python code has no
counterpart in this single-database model. -/
def getTable (db : Db) (nm : String) : Except DbErr Table :=
  match alookup db nm with
  | none => .error (.tableNotFound (nm ++ " not in db"))
  | some td =>
    let fts := td.cols.map (fun p => (p.1, pyUpper p.2))
    let subs :=
      match td.rows.find? (fun r => r.rid == 0) with
      | none => []
      | some r0 => r0.manifest.map Prod.fst
    if fts.all (fun p => validTypeName p.2) then
      .ok ⟨nm, fts, subs, 0⟩
    else .error (.valueError "The type of an SQLite field must be one of INTEGER, REAL, TEXT, BLOB")

/-- `SELECT MAX(id)` over the rows (none when the relation is empty). -/
def maxRowId : List Row → Option Int
  | [] => none
  | r :: rest =>
    match maxRowId rest with
    | none => some r.rid
    | some m => some (max m r.rid)

/-- The loop of `Table.get_next_id` (Table.py:155-185), with the
`_max_id` cache threaded explicitly: compare the store's MAX(id) with
the cache (on an empty relation the Python comparison `None < int`
raises TypeError); if the cache is ahead, probe for a row at the cache
and either return `cache + 1` or advance and retry; otherwise adopt
MAX(id) and return it plus one.  Returns the value together with the
updated cache. -/
def nextIdLoop (rows : List Row) : Nat → Int → Except DbErr (Int × Int)
  | 0, _ => .error .fuelExhausted
  | fuel+1, cache =>
    match maxRowId rows with
    | none => .error .typeError
    | some mx =>
      if mx < cache then
        if rows.any (fun r => r.rid == cache) then nextIdLoop rows fuel (cache + 1)
        else .ok (cache + 1, cache + 1)
      else .ok (mx + 1, mx + 1)

/-- `Table.get_next_id` on a handle: run the loop against this table's
rows and return the fresh id plus the handle with its updated cache. -/
def getNextId (db : Db) (t : Table) (fuel : Nat) : Except DbErr (Int × Table) :=
  match alookup db t.name with
  | none => .error (.operational t.name)
  | some td =>
    match nextIdLoop td.rows fuel t.maxId with
    | .error e => .error e
    | .ok (v, c) => .ok (v, ⟨t.name, t.tfields, t.subtables, c⟩)

/-- The fields loop of `is_valid_record` (Table.py:416-430): the first
declared field missing from the record, or whose value has the wrong
runtime type, yields the diagnostic; `none` means all fields check. -/
def fieldCheckMsg (t : Table) (flds : List (String × Value)) : List (String × String) → Option String
  | [] => none
  | (f, ty) :: rest =>
    match alookup flds f with
    | none => some (f ++ " must be defined in records belonging to " ++ t.name)
    | some v =>
      if typeMatches ty v then fieldCheckMsg t flds rest
      else some (f ++ " does not match expected " ++ ty ++ ".")

/-- The inner loop of `is_valid_record` over one subrecord list
(Table.py:443-446), generic in the per-record check `g`. -/
def validGroupWith (g : String → Record → Except DbErr (Bool × String)) (tn : String) : List Record → Except DbErr (Bool × String)
  | [] => .ok (true, "Valid")
  | r :: rs =>
    match g tn r with
    | .error e => .error e
    | .ok (false, m) => .ok (false, m)
    | .ok (true, _) => validGroupWith g tn rs

/-- The subrecords loop of `is_valid_record` (Table.py:432-446): each
key must be a declared subtable, and every listed record must pass `g`
(`g` re-opens the child table via `get_table` and recurses). -/
def validSubsWith (g : String → Record → Except DbErr (Bool × String)) (t : Table) : List (String × List Record) → Except DbErr (Bool × String)
  | [] => .ok (true, "Valid")
  | (tn, l) :: rest =>
    if t.subtables.contains tn = false then
      .ok (false, tn ++ " is not defined as a subtable of " ++ t.name)
    else
      match validGroupWith g tn l with
      | .error e => .error e
      | .ok (false, m) => .ok (false, m)
      | .ok (true, _) => validSubsWith g t rest

/-- `Table.is_valid_record` (Table.py:380-448).  In order: the key
count must equal the field count plus two (the `id` and `subrecords`
keys are structural in our `Record`, so their presence checks at
Table.py:400-406 always pass); the subrecord key count must equal the
declared subtable count; every declared field must be present with a
type-matching value; every subrecord key must be declared and every
listed child must be recursively valid against the child handle opened
by `get_table` (which raises TableNotFoundError for an undeclared
relation, propagated here as `.error`). -/
def isValidRecord (db : Db) (t : Table) (r : Record) : Nat → Except DbErr (Bool × String)
  | 0 => .error .fuelExhausted
  | fuel+1 =>
    if r.rfields.length ≠ t.tfields.length then
      .ok (false, t.name ++ " requires " ++ toString (t.tfields.length + 2) ++ " fields. " ++ toString (r.rfields.length + 2) ++ " given.")
    else if r.subs.length ≠ t.subtables.length then
      .ok (false, t.name ++ " requires " ++ toString t.subtables.length ++ " subtables defined. Received " ++ toString r.subs.length ++ ".")
    else
      match fieldCheckMsg t r.rfields t.tfields with
      | some m => .ok (false, m)
      | none =>
        validSubsWith (fun tn rc =>
          match getTable db tn with
          | .error e => .error e
          | .ok tc => isValidRecord db tc rc fuel) t r.subs

/-- Set one column of a row's stored values. -/
def mapSet : List (String × Value) → String → Value → List (String × Value)
  | [], _, _ => []
  | (k, w) :: rest, f, v =>
    if k = f then (f, v) :: mapSet rest f v else (k, w) :: mapSet rest f v

/-- Assigning one column of a row: overwrite it if set, else set it. -/
def setVal (vals : List (String × Value)) (f : String) (v : Value) : List (String × Value) :=
  if vals.any (fun p => p.1 == f) then mapSet vals f v
  else vals ++ [(f, v)]

/-- Execution of the UPDATE's SET list (Table.py:330-344): assign each
record field column in turn. -/
def writeVals (old : List (String × Value)) : List (String × Value) → List (String × Value)
  | [] => old
  | (f, v) :: rest => writeVals (setVal old f v) rest

/-- Execution of the probe-then-upsert of `save_record`
(Table.py:322-372): if a row with this id exists, UPDATE its field
columns and `subrecords` in place; otherwise INSERT a new row at the
end. -/
def upsertRows (rows : List Row) (i : Int) (flds : List (String × Value)) (m : List (String × List Int)) : List Row :=
  if rows.any (fun r => r.rid == i) then
    rows.map (fun r => if r.rid == i then ⟨r.rid, writeVals r.vals flds, m⟩ else r)
  else rows ++ [⟨i, flds, m⟩]

/-- The inner loop of the recursive child save (Table.py:377-378),
generic in the per-record action `g` (which re-opens the child table
and saves); an exception aborts the remaining iterations but keeps the
writes already made. -/
def saveGroupWith (g : Db → String → Record → Db × Option DbErr) : Db → String → List Record → Db × Option DbErr
  | db, _, [] => (db, none)
  | db, tn, r :: rs =>
    match g db tn r with
    | (db2, some e) => (db2, some e)
    | (db2, none) => saveGroupWith g db2 tn rs

/-- The outer loop of the recursive child save (Table.py:376-378). -/
def saveSubsWith (g : Db → String → Record → Db × Option DbErr) : Db → List (String × List Record) → Db × Option DbErr
  | db, [] => (db, none)
  | db, (tn, l) :: rest =>
    match saveGroupWith g db tn l with
    | (db2, some e) => (db2, some e)
    | (db2, none) => saveSubsWith g db2 rest

/-- `Table.save_record` (Table.py:282-378): validate (InvalidRecordError
on a rejected record, before any store access); build the manifest from
the subrecords' ids; upsert this record's own row; then depth-first save
every child record through a `get_table` handle of its table.  The
result is the store after whatever writes happened, plus the first
exception if one was raised (partial writes are kept, as in Python). -/
def saveRecord (db : Db) (t : Table) (r : Record) : Nat → Db × Option DbErr
  | 0 => (db, some .fuelExhausted)
  | fuel+1 =>
    match isValidRecord db t r (fuel+1) with
    | .error e => (db, some e)
    | .ok (false, msg) => (db, some (.invalidRecord msg))
    | .ok (true, _) =>
      match alookup db t.name with
      | none => (db, some (.operational t.name))
      | some td =>
        let db2 := dbSet db t.name ⟨td.cols, upsertRows td.rows r.rid r.rfields (manifestOf r.subs)⟩
        saveSubsWith (fun dbc tn rc =>
          match getTable dbc tn with
          | .error e => (dbc, some e)
          | .ok tc => saveRecord dbc tc rc fuel) db2 r.subs

/-- The value of column `f` in a row (NULL when unset), as the SELECT
of `get_record`/`fetchall` yields it. -/
def rowFieldVal (row : Row) (f : String) : Value :=
  (alookup row.vals f).getD .vNull

/-- Reconstruction of the field entries (Table.py:262-264): one entry
per handle field, in handle order, from the row's columns. -/
def hydrateFields (t : Table) (row : Row) : List (String × Value) :=
  t.tfields.map (fun p => (p.1, rowFieldVal row p.1))

/-- The inner hydration loop (Table.py:273-277), generic in the
per-id fetch `g`. -/
def hydrateGroupWith (g : Int → Except DbErr Record) : List Int → Except DbErr (List Record)
  | [] => .ok []
  | i :: is =>
    match g i with
    | .error e => .error e
    | .ok r =>
      match hydrateGroupWith g is with
      | .error e => .error e
      | .ok rs => .ok (r :: rs)

/-- The outer hydration loop over the parsed manifest
(Table.py:268-279): every listed child id is fetched; a missing child
propagates its exception. -/
def hydrateSubsWith (g : String → Int → Except DbErr Record) : List (String × List Int) → Except DbErr (List (String × List Record))
  | [] => .ok []
  | (tn, ids) :: rest =>
    match hydrateGroupWith (g tn) ids with
    | .error e => .error e
    | .ok l =>
      match hydrateSubsWith g rest with
      | .error e => .error e
      | .ok s => .ok ((tn, l) :: s)

/-- `Table.get_record` (Table.py:236-280): fetch the row with this id
(the source raises `InvalidRecordError` — not a dedicated not-found
error — when it is absent); rebuild the fields from the handle's field
list; recursively fetch every child listed in the manifest through a
fresh `get_table` handle. -/
def getRecord (db : Db) (t : Table) (i : Int) : Nat → Except DbErr Record
  | 0 => .error .fuelExhausted
  | fuel+1 =>
    match alookup db t.name with
    | none => .error (.operational t.name)
    | some td =>
      match td.rows.find? (fun r => r.rid == i) with
      | none => .error (.invalidRecord ("There is no record from " ++ t.name ++ " with id = " ++ toString i))
      | some row =>
        match hydrateSubsWith (fun tn j =>
            match getTable db tn with
            | .error e => .error e
            | .ok tc => getRecord db tc j fuel) row.manifest with
        | .error e => .error e
        | .ok subs => .ok (.mk row.rid (hydrateFields t row) subs)

/-- The per-row loop of `fetchall` (Table.py:212-233), generic in the
manifest hydration `g`: hydrate every row, in backing order. -/
def fetchRowsWith (t : Table) (g : List (String × List Int) → Except DbErr (List (String × List Record))) : List Row → Except DbErr (List Record)
  | [] => .ok []
  | row :: rest =>
    match g row.manifest with
    | .error e => .error e
    | .ok subs =>
      match fetchRowsWith t g rest with
      | .error e => .error e
      | .ok rs => .ok (.mk row.rid (hydrateFields t row) subs :: rs)

/-- `Table.fetchall` (Table.py:191-234): SELECT every row of the
relation — there is no `id != 0` filter in the statement — and hydrate
each exactly as `get_record` does. -/
def fetchall (db : Db) (t : Table) (fuel : Nat) : Except DbErr (List Record) :=
  match alookup db t.name with
  | none => .error (.operational t.name)
  | some td =>
    fetchRowsWith t (fun m => hydrateSubsWith (fun tn j =>
      match getTable db tn with
      | .error e => .error e
      | .ok tc => getRecord db tc j fuel) m) td.rows

/-- `Table.delete_record` (Table.py:478-489): `DELETE ... WHERE id = i`
on this relation only.  Deleting an absent id is a silent no-op — the
source raises nothing. -/
def deleteRecord (db : Db) (t : Table) (i : Int) : Except DbErr Db :=
  match alookup db t.name with
  | none => .error (.operational t.name)
  | some td => .ok (dbSet db t.name ⟨td.cols, td.rows.filter (fun r => r.rid != i)⟩)

/-- `Table.create_record` (Table.py:450-476): allocate a fresh id via
`get_next_id`, attach the caller's fields and subrecords (the
parameter default is the EMPTY dict — no per-declared-subtable empty
groups are filled in), validate, and return the in-memory record with
the updated handle.  Nothing is written to the store. -/
def createRecord (db : Db) (t : Table) (flds : List (String × Value)) (subs : List (String × List Record)) (fuel : Nat) : Except DbErr (Record × Table) :=
  match getNextId db t fuel with
  | .error e => .error e
  | .ok (i, t2) =>
    let r : Record := .mk i flds subs
    match isValidRecord db t2 r fuel with
    | .error e => .error e
    | .ok (false, msg) => .error (.invalidRecord msg)
    | .ok (true, _) => .ok (r, t2)

/-- Python whitespace as `str.strip` treats it. -/
def isPySpace (c : Char) : Bool :=
  c == ' ' || c == '\t' || c == '\n' || c == '\r' || c == '\x0b' || c == '\x0c'

/-- Python `str.strip()`. -/
def pyStrip (l : List Char) : List Char :=
  ((l.dropWhile isPySpace).reverse.dropWhile isPySpace).reverse

/-- `_get_keywords` (Table.py:510-532): strip; on an empty remainder
the Python `s[0]` raises IndexError (so an empty query, or one ending
in a quoted phrase, crashes); a leading double quote with another
quote ahead yields the quoted run (spaces kept) and recurses past the
closing quote; otherwise split at the first space; otherwise one
token. -/
def getKeywords : Nat → List Char → Except DbErr (List (List Char))
  | 0, _ => .error .fuelExhausted
  | fuel+1, s0 =>
    let s := pyStrip s0
    match s with
    | [] => .error .indexError
    | c :: rest =>
      if c == '"' && s.count '"' > 1 then
        match rest.findIdx? (fun d => d == '"') with
        | none => .error .indexError
        | some idx =>
          match getKeywords fuel (rest.drop (idx + 1)) with
          | .error e => .error e
          | .ok toks => .ok (rest.take idx :: toks)
      else if s.contains ' ' then
        match s.findIdx? (fun d => d == ' ') with
        | none => .error .indexError
        | some loc =>
          match getKeywords fuel (s.drop (loc + 1)) with
          | .error e => .error e
          | .ok toks => .ok (s.take loc :: toks)
      else .ok [s]

/-- ASCII lower-casing, the case folding SQLite's default LIKE applies. -/
def asciiLowerChar (c : Char) : Char :=
  if 'A' ≤ c ∧ c ≤ 'Z' then Char.ofNat (c.toNat + 32) else c

/-- SQLite `LIKE` pattern matching: `%` matches any run, `_` any single
character, and plain characters compare case-insensitively over ASCII
(SQLite's default, with no ESCAPE clause in the source's queries). -/
def likeMatch : List Char → List Char → Bool
  | [], v => v.isEmpty
  | p :: ps, v =>
    if p = '%' then v.tails.any (fun suf => likeMatch ps suf)
    else if p = '_' then
      match v with
      | [] => false
      | _ :: vs => likeMatch ps vs
    else
      match v with
      | [] => false
      | c :: vs => asciiLowerChar p == asciiLowerChar c && likeMatch ps vs

/-- `column LIKE pattern` on a stored value: NULL yields no match (the
WHERE clause drops the row); INTEGER values are coerced to their text
form.  REAL and BLOB coercion is left unmodelled (no claim touches
them); they never match here. -/
def valueLike : Value → List Char → Bool
  | .vText s, p => likeMatch p s.data
  | .vInt n, p => likeMatch p (toString n).data
  | .vNull, _ => false
  | .vReal _, _ => false
  | .vBlob _, _ => false

/-- The hydration loop of `search_records` (Table.py:579-581): fetch
each matched id through `get_record` on this same handle. -/
def getRecordsByIds (db : Db) (t : Table) (fuel : Nat) : List Int → Except DbErr (List Record)
  | [] => .ok []
  | i :: is =>
    match getRecord db t i fuel with
    | .error e => .error e
    | .ok r =>
      match getRecordsByIds db t fuel is with
      | .error e => .error e
      | .ok rs => .ok (r :: rs)

/-- `Table.search_records` in relative (default, `strict=False`) mode
(Table.py:491-583): reject an undeclared field (the source raises
`InvalidRecordError`); tokenize the query; a row is selected when the
searched column LIKE-matches `%token%` for some token or `%query%` for
the whole query, and its id differs from every excluded id; the
selected ids are hydrated via `get_record`.  The strict branch
(Table.py:542-550) interpolates the raw search value as SQL and is not
modelled; no claim concerns it. -/
def searchRecords (db : Db) (t : Table) (fieldToSearch : String) (searchFor : String) (excludeIds : List Int) (fuel : Nat) : Except DbErr (List Record) :=
  if (t.tfields.map Prod.fst).contains fieldToSearch = false then
    .error (.invalidRecord (fieldToSearch ++ " is not a field in " ++ t.name))
  else
    match getKeywords fuel searchFor.data with
    | .error e => .error e
    | .ok keyWords =>
      match alookup db t.name with
      | none => .error (.operational t.name)
      | some td =>
        let pats := keyWords ++ [searchFor.data]
        let ids := (td.rows.filter (fun row =>
          pats.any (fun kw => valueLike (rowFieldVal row fieldToSearch) ('%' :: (kw ++ ['%'])))
          && excludeIds.all (fun e => row.rid != e))).map Row.rid
        getRecordsByIds db t fuel ids

/-- Python `==` on record dicts: equal ids, field dicts equal as
key-value maps, subrecord dicts equal with the child lists compared
elementwise.  Key order is irrelevant, as for Python dict equality. -/
def assocValBeq (a b : List (String × Value)) : Bool :=
  a.length == b.length && a.all (fun p => alookup b p.1 == some p.2)

mutual
/-- Python deep equality of records (dict `==`). -/
def recordBeq : Record → Record → Bool
  | .mk i1 f1 s1, .mk i2 f2 s2 =>
    i1 == i2 && assocValBeq f1 f2 && s1.length == s2.length && subsIncl s1 s2
/-- Every subrecord entry of the first dict appears in the second with
an elementwise-equal list. -/
def subsIncl : List (String × List Record) → List (String × List Record) → Bool
  | [], _ => true
  | (tn, l) :: rest, b =>
    (match alookup b tn with
     | none => false
     | some l2 => recListBeq l l2) && subsIncl rest b
/-- Python `==` on lists of records. -/
def recListBeq : List Record → List Record → Bool
  | [], [] => true
  | r :: rs, q :: qs => recordBeq r q && recListBeq rs qs
  | _, _ => false
end

mutual
/-- The rows a whole-tree save targets: this record's (table, id) pair
followed by those of all descendants, each child keyed by the subtable
name it is listed under. -/
def nodesR (tn : String) : Record → List (String × Int)
  | .mk i _ subs => (tn, i) :: nodesS subs
/-- Nodes of a subrecords dict. -/
def nodesS : List (String × List Record) → List (String × Int)
  | [] => []
  | (tn, l) :: rest => nodesL tn l ++ nodesS rest
/-- Nodes of one child list. -/
def nodesL (tn : String) : List Record → List (String × Int)
  | [] => []
  | r :: rs => nodesR tn r ++ nodesL tn rs
end

/-- No duplicate keys, as holds for every association list that embeds
an actual Python dict. -/
def nodupStr : List String → Bool
  | [] => true
  | k :: ks => (ks.contains k = false) && nodupStr ks

mutual
/-- Python-representability of a record tree: at every level the field
keys and the subrecord keys are duplicate-free (they come from Python
dicts). -/
def wfRec : Record → Bool
  | .mk _ f s => nodupStr (f.map Prod.fst) && nodupStr (s.map Prod.fst) && wfSubs s
/-- `wfRec` over a subrecords dict. -/
def wfSubs : List (String × List Record) → Bool
  | [] => true
  | (_, l) :: rest => wfRecList l && wfSubs rest
/-- `wfRec` over a child list. -/
def wfRecList : List Record → Bool
  | [] => true
  | r :: rs => wfRec r && wfRecList rs
end

mutual
/-- Height of a record tree: the recursion depth `get_record` needs. -/
def depthR : Record → Nat
  | .mk _ _ s => depthS s + 1
/-- Height over a subrecords dict. -/
def depthS : List (String × List Record) → Nat
  | [] => 0
  | (_, l) :: rest => max (depthL l) (depthS rest)
/-- Height over a child list. -/
def depthL : List Record → Nat
  | [] => 0
  | r :: rs => max (depthR r) (depthL rs)
end

/-- No duplicate ids among rows, and no duplicate column names: the
invariants SQLite's PRIMARY KEY and CREATE TABLE enforce. -/
def wfTableData (td : TableData) : Bool :=
  (td.rows.map Row.rid).Nodup && (td.cols.map Prod.fst).Nodup

/-- Well-formed store: distinct relation names, each relation
well-formed. -/
def wfDb (db : Db) : Bool :=
  (db.map Prod.fst).Nodup && db.all (fun p => wfTableData p.2)

/-- The column schema of relation `n`. -/
def colsAt (db : Db) (n : String) : Option (List (String × String)) :=
  (alookup db n).map TableData.cols

/-- The row a single node of a record tree writes: target table, id,
field values, and manifest. -/
structure RowSpec where
  tbl : String
  sid : Int
  flds : List (String × Value)
  man : List (String × List Int)

mutual
/-- All rows a whole-tree `save_record` writes, pre-order: this
record's own row (keyed by the table it is being saved into) followed
by those of its descendants, each keyed by its subtable name. -/
def rowSpecsR (tn : String) : Record → List RowSpec
  | .mk i flds subs => ⟨tn, i, flds, manifestOf subs⟩ :: rowSpecsS subs
/-- `rowSpecsR` over a subrecords dict. -/
def rowSpecsS : List (String × List Record) → List RowSpec
  | [] => []
  | (tn, l) :: rest => rowSpecsL tn l ++ rowSpecsS rest
/-- `rowSpecsR` over one child list. -/
def rowSpecsL (tn : String) : List Record → List RowSpec
  | [] => []
  | r :: rs => rowSpecsR tn r ++ rowSpecsL tn rs
end

/-- The (table, id) addresses of a spec list. -/
def pairsOf (l : List RowSpec) : List (String × Int) :=
  l.map (fun s => (s.tbl, s.sid))

/-- The (table, id) addresses a whole-tree save of `r` into table `tn`
writes. -/
def savePairs (tn : String) (r : Record) : List (String × Int) :=
  pairsOf (rowSpecsR tn r)

/-- `db2` differs from `db` only at the row addresses `ns`: same
relations, same column schemas, and every row outside `ns` unchanged. -/
def DbFrame (ns : List (String × Int)) (db db2 : Db) : Prop :=
  db2.map Prod.fst = db.map Prod.fst ∧
  (∀ n, colsAt db2 n = colsAt db n) ∧
  (∀ n i, (n, i) ∉ ns → rowAt db2 n i = rowAt db n i)

/-- The store holds, at address (tn, i), a row whose manifest is `m`
and whose columns contain every binding of `flds`. -/
def rowHolds (db : Db) (tn : String) (i : Int) (flds : List (String × Value)) (m : List (String × List Int)) : Prop :=
  ∃ row, rowAt db tn i = some row ∧ row.rid = i ∧ row.manifest = m ∧
    ∀ f v, alookup flds f = some v → alookup row.vals f = some v

/-- Every row of the tree of `r` (rooted at table `tn`) is present in
the store with its node's field values and manifest. -/
def savedTree (db : Db) (tn : String) (r : Record) : Prop :=
  ∀ s ∈ rowSpecsR tn r, rowHolds db s.tbl s.sid s.flds s.man

/-- Repeated `get_next_id` calls on one handle without intervening
saves: run `n` calls against the unchanged store, threading the handle
(and so its `_max_id` cache), and collect the returned ids in order. -/
def runGetNextIds (db : Db) (fuel : Nat) : Nat → Table → Except DbErr (List Int)
  | 0, _ => .ok []
  | n+1, t =>
    match getNextId db t fuel with
    | .error e => .error e
    | .ok (v, t2) =>
      match runGetNextIds db fuel n t2 with
      | .error e => .error e
      | .ok vs => .ok (v :: vs)

/-- ASCII-case-folded characters of a string piece. -/
def lcs (l : List Char) : List Char := l.map asciiLowerChar

/-- The spec's relative-search match condition, corrected for SQLite's
case folding: the field value contains some token, or the whole query,
as a case-insensitive substring. -/
def relMatch (toks : List (List Char)) (query : List Char) (s : String) : Prop :=
  ∃ kw, kw ∈ toks ++ [query] ∧ lcs kw <:+: lcs s.data

/-- A piece of query text containing no LIKE wildcard. -/
def noWild (l : List Char) : Prop := ∀ c ∈ l, c ≠ '%' ∧ c ≠ '_'

-- Store lemmas, id allocation, absent-id behaviour.

theorem alookup_dbSet_self (db : Db) (n : String) (td : TableData) :
    alookup (dbSet db n td) n = (alookup db n).map (fun _ => td) := by
  induction db with
  | nil => simp [dbSet, alookup]
  | cons p rest ih =>
    obtain ⟨k, v⟩ := p
    by_cases hk : k = n
    · subst hk
      simp [dbSet, alookup]
    · simp [dbSet, alookup, hk, ih]

theorem alookup_dbSet_ne (db : Db) (n : String) (td : TableData) (m : String) (hm : m ≠ n) :
    alookup (dbSet db n td) m = alookup db m := by
  induction db with
  | nil => simp [dbSet]
  | cons p rest ih =>
    obtain ⟨k, v⟩ := p
    by_cases hk : k = n
    · subst hk
      simp [dbSet, alookup, Ne.symm hm, ih]
    · by_cases hmk : k = m
      · subst hmk
        simp [dbSet, alookup, hk]
      · simp [dbSet, alookup, hk, hmk, ih]

theorem names_dbSet (db : Db) (n : String) (td : TableData) :
    (dbSet db n td).map Prod.fst = db.map Prod.fst := by
  induction db with
  | nil => simp [dbSet]
  | cons p rest ih =>
    obtain ⟨k, v⟩ := p
    by_cases hk : k = n
    · simp [dbSet, hk, ih]
    · simp [dbSet, hk, ih]

theorem rowAt_dbSet_ne (db : Db) (n : String) (td : TableData) (m : String) (i : Int) (hm : m ≠ n) :
    rowAt (dbSet db n td) m i = rowAt db m i := by
  unfold rowAt
  rw [alookup_dbSet_ne db n td m hm]

theorem rowAt_dbSet_self (db : Db) (n : String) (td td0 : TableData) (i : Int)
    (h : alookup db n = some td0) :
    rowAt (dbSet db n td) n i = td.rows.find? (fun r => r.rid == i) := by
  unfold rowAt
  rw [alookup_dbSet_self, h]
  rfl

theorem colsAt_dbSet (db : Db) (n : String) (td td0 : TableData)
    (h : alookup db n = some td0) (hcols : td.cols = td0.cols) (m : String) :
    colsAt (dbSet db n td) m = colsAt db m := by
  unfold colsAt
  by_cases hm : m = n
  · subst hm
    rw [alookup_dbSet_self, h]
    simp [hcols]
  · rw [alookup_dbSet_ne db n td m hm]

theorem dbSet_of_not_mem (db : Db) (n : String) (td : TableData)
    (h : n ∉ db.map Prod.fst) : dbSet db n td = db := by
  induction db with
  | nil => simp [dbSet]
  | cons p rest ih =>
    obtain ⟨k, v⟩ := p
    simp only [List.map_cons, List.mem_cons, not_or] at h
    simp only [dbSet, if_neg (fun hh : k = n => h.1 hh.symm), List.cons.injEq, true_and]
    exact ih h.2

theorem dbSet_self (db : Db) (n : String) (td : TableData)
    (hnd : (db.map Prod.fst).Nodup) (h : alookup db n = some td) :
    dbSet db n td = db := by
  induction db with
  | nil => simp [dbSet]
  | cons p rest ih =>
    obtain ⟨k, v⟩ := p
    simp only [List.map_cons, List.nodup_cons] at hnd
    by_cases hk : k = n
    · subst hk
      simp only [alookup, if_pos rfl, Option.some.injEq] at h
      have hv : v = td := by simpa using h
      subst hv
      simp only [dbSet, eq_self_iff_true, if_true, List.cons.injEq, true_and]
      exact dbSet_of_not_mem rest k v hnd.1
    · simp only [alookup, if_neg hk] at h
      simp only [dbSet, if_neg hk, List.cons.injEq, true_and]
      exact ih hnd.2 h

-- maxRowId bound
theorem maxRowId_eq_none (rows : List Row) (h : maxRowId rows = none) : rows = [] := by
  cases rows with
  | nil => rfl
  | cons q rest =>
    exfalso
    cases hrest : maxRowId rest with
    | none => simp [maxRowId, hrest] at h
    | some m => simp [maxRowId, hrest] at h

theorem maxRowId_ge (rows : List Row) (mx : Int) (h : maxRowId rows = some mx) :
    ∀ r ∈ rows, r.rid ≤ mx := by
  induction rows generalizing mx with
  | nil => simp [maxRowId] at h
  | cons q rest ih =>
    simp only [maxRowId] at h
    cases hrest : maxRowId rest with
    | none =>
      have hre := maxRowId_eq_none rest hrest
      subst hre
      simp only [hrest, Option.some.injEq] at h
      subst h
      intro r hr
      rcases List.mem_cons.mp hr with h1 | h2
      · subst h1; exact le_refl _
      · simp at h2
    | some m =>
      simp only [hrest, Option.some.injEq] at h
      subst h
      intro r hr
      rcases List.mem_cons.mp hr with h1 | h2
      · subst h1; exact le_max_right _ _
      · exact le_trans (ih m hrest r h2) (le_max_left _ _)

theorem nextIdLoop_ok (rows : List Row) (fuel : Nat) :
    ∀ (cache v c : Int),
      nextIdLoop rows fuel cache = .ok (v, c) →
      c = v ∧ cache < v ∧ ∀ r ∈ rows, r.rid < v := by
  induction fuel with
  | zero => intro cache v c h; simp [nextIdLoop] at h
  | succ fuel ih =>
    intro cache v c h
    simp only [nextIdLoop] at h
    cases hmx : maxRowId rows with
    | none => simp [hmx] at h
    | some mx =>
      simp only [hmx] at h
      have hbound := maxRowId_ge rows mx hmx
      by_cases hlt : mx < cache
      · rw [if_pos hlt] at h
        cases hany : rows.any (fun r => r.rid == cache) with
        | true =>
          rw [hany, if_pos rfl] at h
          have := ih (cache + 1) v c h
          exact ⟨this.1, by omega, this.2.2⟩
        | false =>
          rw [hany] at h
          simp only [Bool.false_eq_true, if_neg (by simp : ¬ (false = true))] at h
          obtain ⟨hv, hc⟩ : cache + 1 = v ∧ cache + 1 = c := by
            cases h; exact ⟨rfl, rfl⟩
          subst hv
          refine ⟨hc.symm, by omega, ?_⟩
          intro r hr
          have := hbound r hr
          omega
      · rw [if_neg hlt] at h
        obtain ⟨hv, hc⟩ : mx + 1 = v ∧ mx + 1 = c := by
          cases h; exact ⟨rfl, rfl⟩
        subst hv
        refine ⟨hc.symm, by omega, ?_⟩
        intro r hr
        have := hbound r hr
        omega

theorem runGetNextIds_ok (db : Db) (fuel : Nat) (td : TableData) :
    ∀ (n : Nat) (t : Table) (vs : List Int),
      alookup db t.name = some td →
      runGetNextIds db fuel n t = .ok vs →
      (∀ v ∈ vs, ∀ r ∈ td.rows, r.rid < v) ∧ (∀ v ∈ vs, t.maxId < v) ∧
        List.Pairwise (· < ·) vs := by
  intro n
  induction n with
  | zero =>
    intro t vs htd h
    simp only [runGetNextIds] at h
    cases h
    simp
  | succ n ih =>
    intro t vs htd h
    simp only [runGetNextIds, getNextId, htd] at h
    cases hloop : nextIdLoop td.rows fuel t.maxId with
    | error e => simp [hloop] at h
    | ok p =>
      obtain ⟨v, c⟩ := p
      simp only [hloop] at h
      cases hrun : runGetNextIds db fuel n ⟨t.name, t.tfields, t.subtables, c⟩ with
      | error e => simp [hrun] at h
      | ok vs2 =>
        simp only [hrun] at h
        cases h
        obtain ⟨hcv, hmax, hrows⟩ := nextIdLoop_ok td.rows fuel t.maxId v c hloop
        obtain ⟨hr1, hr2, hr3⟩ := ih ⟨t.name, t.tfields, t.subtables, c⟩ vs2 htd hrun
        have hvu : ∀ u ∈ vs2, v < u := by
          intro u hu
          have hcu : c < u := hr2 u hu
          omega
        refine ⟨?_, ?_, ?_⟩
        · intro u hu r hr
          rcases List.mem_cons.mp hu with h1 | h2
          · subst h1; exact hrows r hr
          · exact lt_trans (hrows r hr) (hvu u h2)
        · intro u hu
          rcases List.mem_cons.mp hu with h1 | h2
          · subst h1; exact hmax
          · exact lt_trans hmax (hvu u h2)
        · exact List.pairwise_cons.mpr ⟨hvu, hr3⟩

/-- C3: every id returned by repeated `get_next_id` calls on one handle
with no intervening saves is absent from the table's rows at call time,
the same handle never returns a value twice, and the returned sequence
is non-decreasing. -/
theorem c3_next_id_fresh_and_monotone (db : Db) (t : Table) (td : TableData)
    (fuel n : Nat) (vs : List Int)
    (htd : alookup db t.name = some td)
    (h : runGetNextIds db fuel n t = .ok vs) :
    (∀ v ∈ vs, ∀ r ∈ td.rows, r.rid ≠ v) ∧
      List.Pairwise (· ≠ ·) vs ∧ List.Chain' (· ≤ ·) vs := by
  obtain ⟨h1, _, h3⟩ := runGetNextIds_ok db fuel td n t vs htd h
  refine ⟨?_, ?_, ?_⟩
  · intro v hv r hr
    exact (h1 v hv r hr).ne
  · exact h3.imp (fun hlt => hlt.ne)
  · exact (h3.imp (fun hlt => hlt.le)).chain'

theorem c3_witness :
    runGetNextIds [("Pet", ⟨[("name", "TEXT")], [⟨0, [], []⟩]⟩)] 4 3
        ⟨"Pet", [("name", "TEXT")], [], 0⟩ = .ok [1, 2, 3] ∧
      ((∀ v ∈ ([1, 2, 3] : List Int), ∀ r ∈ [(⟨0, [], []⟩ : Row)], r.rid ≠ v) ∧
        List.Pairwise (· ≠ ·) ([1, 2, 3] : List Int) ∧
        List.Chain' (· ≤ ·) ([1, 2, 3] : List Int)) :=
  ⟨rfl, c3_next_id_fresh_and_monotone
    [("Pet", ⟨[("name", "TEXT")], [⟨0, [], []⟩]⟩)]
    ⟨"Pet", [("name", "TEXT")], [], 0⟩ ⟨[("name", "TEXT")], [⟨0, [], []⟩]⟩
    4 3 [1, 2, 3] rfl rfl⟩

/-- C9 (amended): fetching an absent id fails — with the source's
`InvalidRecordError`, there being no dedicated not-found error class —
while deleting an absent id does not fail at all: it is a silent no-op
that leaves the store unchanged. -/
theorem c9_absent_get_fails_delete_noop (db : Db) (t : Table) (i : Int)
    (td : TableData) (fuel : Nat)
    (hnd : (db.map Prod.fst).Nodup)
    (htd : alookup db t.name = some td)
    (habs : td.rows.all (fun r => r.rid != i) = true) :
    getRecord db t i (fuel + 1) =
        .error (.invalidRecord ("There is no record from " ++ t.name ++ " with id = " ++ toString i)) ∧
      deleteRecord db t i = .ok db := by
  have hfind : td.rows.find? (fun r => r.rid == i) = none := by
    apply List.find?_eq_none.mpr
    intro r hr
    have := List.all_eq_true.mp habs r hr
    simpa using this
  constructor
  · simp [getRecord, htd, hfind]
  · have hfilter : td.rows.filter (fun r => r.rid != i) = td.rows := by
      apply List.filter_eq_self.mpr
      intro r hr
      exact List.all_eq_true.mp habs r hr
    simp only [deleteRecord, htd, hfilter]
    rw [show (⟨td.cols, td.rows⟩ : TableData) = td from rfl]
    rw [dbSet_self db t.name td hnd htd]

theorem c9_witness :
    getRecord [("Pet", ⟨[("name", "TEXT")], [⟨0, [], []⟩]⟩)]
        ⟨"Pet", [("name", "TEXT")], [], 0⟩ 7 3 =
      .error (.invalidRecord ("There is no record from " ++ "Pet" ++ " with id = " ++ toString (7 : Int))) ∧
    deleteRecord [("Pet", ⟨[("name", "TEXT")], [⟨0, [], []⟩]⟩)]
        ⟨"Pet", [("name", "TEXT")], [], 0⟩ 7 =
      .ok [("Pet", ⟨[("name", "TEXT")], [⟨0, [], []⟩]⟩)] :=
  c9_absent_get_fails_delete_noop
    [("Pet", ⟨[("name", "TEXT")], [⟨0, [], []⟩]⟩)]
    ⟨"Pet", [("name", "TEXT")], [], 0⟩ 7 ⟨[("name", "TEXT")], [⟨0, [], []⟩]⟩ 2
    (by decide) rfl (by decide)

/-- C9 counterexample: as stated the claim is false — `delete_record` on
an id with no row does not fail with any error: on this one-row store
deleting the absent id 1 returns successfully and changes nothing. -/
theorem c9_counterexample :
    deleteRecord [("Pet", ⟨[("name", "TEXT")], [⟨0, [], []⟩]⟩)]
        ⟨"Pet", [("name", "TEXT")], [], 0⟩ 1 =
      .ok [("Pet", ⟨[("name", "TEXT")], [⟨0, [], []⟩]⟩)] := by rfl

-- Frame reasoning for save_record.

theorem getTable_ok_name (db : Db) (nm : String) (tc : Table)
    (h : getTable db nm = .ok tc) : tc.name = nm := by
  unfold getTable at h
  cases halk : alookup db nm with
  | none => simp [halk] at h
  | some td =>
    simp only [halk] at h
    by_cases hall : (td.cols.map (fun p => (p.1, pyUpper p.2))).all (fun p => validTypeName p.2) = true
    · rw [if_pos hall] at h
      cases h
      rfl
    · rw [if_neg hall] at h
      cases h

theorem dbFrame_refl (ns : List (String × Int)) (db : Db) : DbFrame ns db db :=
  ⟨rfl, fun _ => rfl, fun _ _ _ => rfl⟩

theorem dbFrame_mono {ns ms : List (String × Int)} {db db2 : Db}
    (h : DbFrame ns db db2) (hsub : ∀ p ∈ ns, p ∈ ms) : DbFrame ms db db2 := by
  refine ⟨h.1, h.2.1, ?_⟩
  intro n i hni
  exact h.2.2 n i (fun hmem => hni (hsub _ hmem))

theorem dbFrame_comp {ns ms : List (String × Int)} {db db2 db3 : Db}
    (h1 : DbFrame ns db db2) (h2 : DbFrame ms db2 db3) : DbFrame (ns ++ ms) db db3 := by
  refine ⟨h2.1.trans h1.1, fun n => (h2.2.1 n).trans (h1.2.1 n), ?_⟩
  intro n i hni
  rw [List.mem_append] at hni
  push_neg at hni
  exact (h2.2.2 n i hni.2).trans (h1.2.2 n i hni.1)

theorem upsert_find_ne (rows : List Row) (i : Int) (flds : List (String × Value))
    (m : List (String × List Int)) (j : Int) (hj : j ≠ i) :
    (upsertRows rows i flds m).find? (fun r => r.rid == j) = rows.find? (fun r => r.rid == j) := by
  unfold upsertRows
  by_cases hany : rows.any (fun r => r.rid == i) = true
  · rw [if_pos hany]
    clear hany
    induction rows with
    | nil => rfl
    | cons q rest ih =>
      by_cases hq : q.rid = i
      · have h1 : (q.rid == i) = true := by simpa using hq
        have h2 : (q.rid == j) = false := by simp [hq]; omega
        simp only [List.map_cons, h1, if_pos rfl]
        rw [List.find?_cons_of_neg _ (by simp [hq]; omega), List.find?_cons_of_neg _ (by simpa using h2)]
        exact ih
      · have h1 : (q.rid == i) = false := by simpa using hq
        simp only [List.map_cons, h1]
        rw [if_neg (by simp [hq])]
        by_cases hqj : q.rid = j
        · rw [List.find?_cons_of_pos _ (by simpa using hqj), List.find?_cons_of_pos _ (by simpa using hqj)]
        · rw [List.find?_cons_of_neg _ (by simpa using hqj), List.find?_cons_of_neg _ (by simpa using hqj)]
          exact ih
  · rw [if_neg hany]
    clear hany
    induction rows with
    | nil =>
      simp only [List.nil_append]
      rw [List.find?_cons_of_neg _ (by simp; omega)]
    | cons q rest ih =>
      by_cases hqj : q.rid = j
      · rw [List.cons_append, List.find?_cons_of_pos _ (by simpa using hqj), List.find?_cons_of_pos _ (by simpa using hqj)]
      · rw [List.cons_append, List.find?_cons_of_neg _ (by simpa using hqj), List.find?_cons_of_neg _ (by simpa using hqj)]
        exact ih

theorem save_step_frame (db : Db) (t : Table) (td : TableData) (i : Int)
    (flds : List (String × Value)) (m : List (String × List Int))
    (htd : alookup db t.name = some td) :
    DbFrame [(t.name, i)] db (dbSet db t.name ⟨td.cols, upsertRows td.rows i flds m⟩) := by
  refine ⟨names_dbSet db t.name _, ?_, ?_⟩
  · intro n
    exact colsAt_dbSet db t.name ⟨td.cols, upsertRows td.rows i flds m⟩ td htd rfl n
  · intro n j hnj
    by_cases hn : n = t.name
    · have hj : j ≠ i := by
        intro hh
        exact hnj (by simp [hn, hh])
      rw [hn]
      rw [rowAt_dbSet_self db t.name ⟨td.cols, upsertRows td.rows i flds m⟩ td j htd]
      unfold rowAt
      rw [htd]
      exact upsert_find_ne td.rows i flds m j hj
    · exact rowAt_dbSet_ne db t.name ⟨td.cols, upsertRows td.rows i flds m⟩ n j hn

theorem pairsOf_append (a b : List RowSpec) :
    pairsOf (a ++ b) = pairsOf a ++ pairsOf b := by
  simp [pairsOf]

theorem saveGroupWith_frame (g : Db → String → Record → Db × Option DbErr)
    (hg : ∀ db tn rc, DbFrame (savePairs tn rc) db (g db tn rc).1) :
    ∀ (l : List Record) (db : Db) (tn : String),
      DbFrame (pairsOf (rowSpecsL tn l)) db (saveGroupWith g db tn l).1 := by
  intro l
  induction l with
  | nil =>
    intro db tn
    exact dbFrame_refl _ db
  | cons r rs ih =>
    intro db tn
    have hpairs : pairsOf (rowSpecsL tn (r :: rs)) = savePairs tn r ++ pairsOf (rowSpecsL tn rs) := by
      simp [rowSpecsL, pairsOf, savePairs]
    rw [hpairs]
    cases hgr : g db tn r with
    | mk db2 e =>
      cases e with
      | some err =>
        simp only [saveGroupWith, hgr]
        have h1 := hg db tn r
        rw [hgr] at h1
        exact dbFrame_mono h1 (fun p hp => List.mem_append_left _ hp)
      | none =>
        simp only [saveGroupWith, hgr]
        have h1 := hg db tn r
        rw [hgr] at h1
        exact dbFrame_comp h1 (ih db2 tn)

theorem saveSubsWith_frame (g : Db → String → Record → Db × Option DbErr)
    (hg : ∀ db tn rc, DbFrame (savePairs tn rc) db (g db tn rc).1) :
    ∀ (subs : List (String × List Record)) (db : Db),
      DbFrame (pairsOf (rowSpecsS subs)) db (saveSubsWith g db subs).1 := by
  intro subs
  induction subs with
  | nil =>
    intro db
    exact dbFrame_refl _ db
  | cons p rest ih =>
    intro db
    obtain ⟨tn, l⟩ := p
    have hpairs : pairsOf (rowSpecsS ((tn, l) :: rest)) = pairsOf (rowSpecsL tn l) ++ pairsOf (rowSpecsS rest) := by
      simp [rowSpecsS, pairsOf]
    rw [hpairs]
    cases hgr : saveGroupWith g db tn l with
    | mk db2 e =>
      cases e with
      | some err =>
        simp only [saveSubsWith, hgr]
        have h1 := saveGroupWith_frame g hg l db tn
        rw [hgr] at h1
        exact dbFrame_mono h1 (fun p hp => List.mem_append_left _ hp)
      | none =>
        simp only [saveSubsWith, hgr]
        have h1 := saveGroupWith_frame g hg l db tn
        rw [hgr] at h1
        exact dbFrame_comp h1 (ih db2)

theorem saveRecord_frame :
    ∀ (fuel : Nat) (db : Db) (t : Table) (r : Record),
      DbFrame (savePairs t.name r) db ((saveRecord db t r fuel).1) := by
  intro fuel
  induction fuel with
  | zero =>
    intro db t r
    exact dbFrame_refl _ db
  | succ fuel ih =>
    intro db t r
    simp only [saveRecord]
    cases hv : isValidRecord db t r (fuel + 1) with
    | error e => exact dbFrame_refl _ db
    | ok p =>
      obtain ⟨ok?, msg⟩ := p
      cases ok? with
      | false => exact dbFrame_refl _ db
      | true =>
        cases htd : alookup db t.name with
        | none => exact dbFrame_refl _ db
        | some td =>
          cases r with
          | mk i flds subs =>
            have hpairs : savePairs t.name (Record.mk i flds subs) =
                (t.name, i) :: pairsOf (rowSpecsS subs) := by
              simp [savePairs, rowSpecsR, pairsOf]
            rw [hpairs]
            have hstep := save_step_frame db t td i flds (manifestOf subs) htd
            have hrest := saveSubsWith_frame
              (fun dbc tn rc =>
                match getTable dbc tn with
                | .error e => (dbc, some e)
                | .ok tc => saveRecord dbc tc rc fuel)
              (by
                intro dbc tn rc
                cases hgt : getTable dbc tn with
                | error e => simp only [hgt]; exact dbFrame_refl _ dbc
                | ok tc =>
                  simp only [hgt]
                  have := ih dbc tc rc
                  rwa [getTable_ok_name dbc tn tc hgt] at this)
              subs
              (dbSet db t.name ⟨td.cols, upsertRows td.rows (Record.mk i flds subs).rid (Record.mk i flds subs).rfields (manifestOf (Record.mk i flds subs).subs)⟩)
            exact dbFrame_comp hstep hrest

-- The id-0 metadata row and delete_record.

theorem alookup_append_right {α : Type} (db : List (String × α)) (nm : String) (x : α)
    (h : alookup db nm = none) : alookup (db ++ [(nm, x)]) nm = some x := by
  induction db with
  | nil => simp [alookup]
  | cons p rest ih =>
    obtain ⟨k, v⟩ := p
    by_cases hk : k = nm
    · simp [alookup, hk] at h
    · simp only [alookup, if_neg hk] at h ⊢
      exact ih h

theorem find?_filter_ne (rows : List Row) (i j : Int) (hij : j ≠ i) :
    (rows.filter (fun r => r.rid != i)).find? (fun r => r.rid == j) =
      rows.find? (fun r => r.rid == j) := by
  induction rows with
  | nil => rfl
  | cons q rest ih =>
    by_cases hqi : q.rid = i
    · have h1 : (q.rid != i) = false := by simp [hqi]
      have h2 : (q.rid == j) = false := by simp [hqi]; omega
      rw [List.filter_cons_of_neg (by simp [h1]), List.find?_cons_of_neg _ (by simp [hqi]; omega)]
      exact ih
    · rw [List.filter_cons_of_pos (by simp [hqi])]
      by_cases hqj : q.rid = j
      · rw [List.find?_cons_of_pos _ (by simpa using hqj), List.find?_cons_of_pos _ (by simpa using hqj)]
      · rw [List.find?_cons_of_neg _ (by simpa using hqj), List.find?_cons_of_neg _ (by simpa using hqj)]
        exact ih

/-- C2 (amended): the id-0 metadata row is created with the table (its
manifest holding the declared subtable names with empty id lists and no
field data), and is preserved by `save_record` whenever no record in
the saved tree carries id 0, and by `delete_record` of any id other
than 0.  It is NOT preserved unconditionally: `delete_record(0)`
removes it (see the counterexample), and `save_record` of a record with
id 0 overwrites it. -/
theorem c2_metadata_row (db : Db) :
    (∀ (nm : String) (fts : List (String × String)) (subs : List String)
        (t : Table) (db2 : Db),
      alookup db nm = none →
      Table.create db nm fts subs = .ok (t, db2) →
      rowAt db2 nm 0 = some ⟨0, [], subs.map (fun s => (s, []))⟩) ∧
    (∀ (t : Table) (r : Record) (fuel : Nat) (n : String),
      (∀ p ∈ savePairs t.name r, p.2 ≠ 0) →
      rowAt ((saveRecord db t r fuel).1) n 0 = rowAt db n 0) ∧
    (∀ (t : Table) (i : Int) (db2 : Db) (n : String),
      i ≠ 0 → deleteRecord db t i = .ok db2 → rowAt db2 n 0 = rowAt db n 0) := by
  refine ⟨?_, ?_, ?_⟩
  · intro nm fts subs t db2 hnone hcr
    unfold Table.create at hcr
    by_cases hall : (fts.map (fun p => (p.1, pyUpper p.2))).all (fun p => validTypeName p.2) = true
    · rw [if_pos hall] at hcr
      cases hcr
      unfold createSelf
      simp only [hnone]
      unfold rowAt
      rw [alookup_append_right db nm _ hnone]
      simp [List.find?]
    · rw [if_neg hall] at hcr
      cases hcr
  · intro t r fuel n hnz
    have hframe := saveRecord_frame fuel db t r
    apply hframe.2.2
    intro hmem
    exact hnz (n, 0) hmem rfl
  · intro t i db2 n hi hdel
    unfold deleteRecord at hdel
    cases htd : alookup db t.name with
    | none => rw [htd] at hdel; cases hdel
    | some td =>
      rw [htd] at hdel
      cases hdel
      by_cases hn : n = t.name
      · rw [hn]
        rw [rowAt_dbSet_self db t.name ⟨td.cols, td.rows.filter (fun r => r.rid != i)⟩ td 0 htd]
        unfold rowAt
        rw [htd]
        exact find?_filter_ne td.rows i 0 (fun hh => hi hh.symm)
      · exact rowAt_dbSet_ne db t.name _ n 0 hn

theorem c2_witness :
    rowAt ((saveRecord [("Pet", ⟨[("name", "TEXT")], [⟨0, [], []⟩]⟩)]
        ⟨"Pet", [("name", "TEXT")], [], 0⟩ (.mk 1 [("name", .vText "Rex")] []) 3).1) "Pet" 0 =
      rowAt [("Pet", ⟨[("name", "TEXT")], [⟨0, [], []⟩]⟩)] "Pet" 0 :=
  (c2_metadata_row [("Pet", ⟨[("name", "TEXT")], [⟨0, [], []⟩]⟩)]).2.1
    ⟨"Pet", [("name", "TEXT")], [], 0⟩ (.mk 1 [("name", .vText "Rex")] []) 3 "Pet"
    (by decide)

/-- C2 counterexample: the claim's "every operation preserves this
invariant" is false — `delete_record(0)` removes the metadata row: on a
freshly created table, deleting id 0 leaves no id-0 row. -/
theorem c2_counterexample :
    Table.create [] "Pet" [("name", "text")] [] =
      .ok (⟨"Pet", [("name", "TEXT")], [], 0⟩, [("Pet", ⟨[("name", "TEXT")], [⟨0, [], []⟩]⟩)]) ∧
    deleteRecord [("Pet", ⟨[("name", "TEXT")], [⟨0, [], []⟩]⟩)] ⟨"Pet", [("name", "TEXT")], [], 0⟩ 0 =
      .ok [("Pet", ⟨[("name", "TEXT")], []⟩)] ∧
    rowAt [("Pet", ⟨[("name", "TEXT")], []⟩)] "Pet" 0 = none :=
  ⟨rfl, rfl, rfl⟩

/-- C5 (amended): `delete_record(id)` removes exactly the row at `id`
from its own table — every other row of that table, and every other
table entirely, is unchanged, so a parent manifest referencing `id`
still lists it — but fetching such a parent afterwards FAILS (the
recursive child fetch raises the source's InvalidRecordError, which
propagates); the unresolved child is not skipped. -/
theorem c5_delete_frame_and_parent_fetch (db : Db) (t : Table) (i : Int) (db2 : Db)
    (hdel : deleteRecord db t i = .ok db2) :
    (db2.map Prod.fst = db.map Prod.fst ∧
     (∀ n, n ≠ t.name → alookup db2 n = alookup db n) ∧
     (∀ j, j ≠ i → rowAt db2 t.name j = rowAt db t.name j) ∧
     rowAt db2 t.name i = none) ∧
    (∀ (tp : Table) (tdp : TableData) (pid : Int) (prow : Row) (c : String)
        (tc : Table) (tdc : TableData) (j : Int) (js : List Int)
        (mrest : List (String × List Int)) (fuel : Nat),
      alookup db2 tp.name = some tdp →
      tdp.rows.find? (fun r => r.rid == pid) = some prow →
      prow.manifest = (c, j :: js) :: mrest →
      getTable db2 c = .ok tc →
      alookup db2 c = some tdc →
      tdc.rows.find? (fun r => r.rid == j) = none →
      getRecord db2 tp pid (fuel + 2) =
        .error (.invalidRecord ("There is no record from " ++ c ++ " with id = " ++ toString j))) := by
  constructor
  · unfold deleteRecord at hdel
    cases htd : alookup db t.name with
    | none => rw [htd] at hdel; cases hdel
    | some td =>
      rw [htd] at hdel
      cases hdel
      refine ⟨names_dbSet db t.name _, ?_, ?_, ?_⟩
      · intro n hn
        exact alookup_dbSet_ne db t.name _ n hn
      · intro j hj
        rw [rowAt_dbSet_self db t.name ⟨td.cols, td.rows.filter (fun r => r.rid != i)⟩ td j htd]
        unfold rowAt
        rw [htd]
        exact find?_filter_ne td.rows i j hj
      · rw [rowAt_dbSet_self db t.name ⟨td.cols, td.rows.filter (fun r => r.rid != i)⟩ td i htd]
        apply List.find?_eq_none.mpr
        intro r hr
        have := List.of_mem_filter hr
        simp only [bne_iff_ne, ne_eq] at this
        simpa using this
  · intro tp tdp pid prow c tc tdc j js mrest fuel htp hfind hman hgt htdc hnone
    have hcname : tc.name = c := getTable_ok_name db2 c tc hgt
    simp only [getRecord, htp, hfind, hman]
    simp only [hydrateSubsWith, hydrateGroupWith, hgt]
    rw [hcname]
    simp [htdc, hnone]

/-- C5 counterexample: the claim's "fetching the parent does not fail"
is false — after deleting child 2 of table C, fetching parent 1 of
table P (whose manifest still lists child 2) raises the child-fetch
error instead of skipping the child. -/
theorem c5_counterexample :
    deleteRecord
        [("P", ⟨[], [⟨0, [], [("C", [])]⟩, ⟨1, [], [("C", [2])]⟩]⟩),
         ("C", ⟨[("f", "TEXT")], [⟨0, [], []⟩, ⟨2, [("f", .vText "x")], []⟩]⟩)]
        ⟨"C", [("f", "TEXT")], [], 0⟩ 2 =
      .ok [("P", ⟨[], [⟨0, [], [("C", [])]⟩, ⟨1, [], [("C", [2])]⟩]⟩),
           ("C", ⟨[("f", "TEXT")], [⟨0, [], []⟩]⟩)] ∧
    getRecord
        [("P", ⟨[], [⟨0, [], [("C", [])]⟩, ⟨1, [], [("C", [2])]⟩]⟩),
         ("C", ⟨[("f", "TEXT")], [⟨0, [], []⟩]⟩)]
        ⟨"P", [], ["C"], 0⟩ 1 5 =
      .error (.invalidRecord "There is no record from C with id = 2") :=
  ⟨rfl, rfl⟩

theorem c5_witness :
    ((deleteRecord
        [("P", ⟨[], [⟨0, [], [("C", [])]⟩, ⟨1, [], [("C", [5])]⟩]⟩),
         ("C", ⟨[("f", "TEXT")], [⟨0, [], []⟩, ⟨5, [("f", .vText "y")], []⟩]⟩)]
        ⟨"C", [("f", "TEXT")], [], 0⟩ 5 = .ok
        [("P", ⟨[], [⟨0, [], [("C", [])]⟩, ⟨1, [], [("C", [5])]⟩]⟩),
         ("C", ⟨[("f", "TEXT")], [⟨0, [], []⟩]⟩)]) ∧
      rowAt [("P", ⟨[], [⟨0, [], [("C", [])]⟩, ⟨1, [], [("C", [5])]⟩]⟩),
             ("C", ⟨[("f", "TEXT")], [⟨0, [], []⟩]⟩)] "C" 0 =
        rowAt [("P", ⟨[], [⟨0, [], [("C", [])]⟩, ⟨1, [], [("C", [5])]⟩]⟩),
               ("C", ⟨[("f", "TEXT")], [⟨0, [], []⟩, ⟨5, [("f", .vText "y")], []⟩]⟩)] "C" 0) ∧
      getRecord [("P", ⟨[], [⟨0, [], [("C", [])]⟩, ⟨1, [], [("C", [5])]⟩]⟩),
                 ("C", ⟨[("f", "TEXT")], [⟨0, [], []⟩]⟩)]
          ⟨"P", [], ["C"], 0⟩ 1 (3 + 2) =
        .error (.invalidRecord ("There is no record from " ++ "C" ++ " with id = " ++ toString (5 : Int))) := by
  have h := c5_delete_frame_and_parent_fetch
    [("P", ⟨[], [⟨0, [], [("C", [])]⟩, ⟨1, [], [("C", [5])]⟩]⟩),
     ("C", ⟨[("f", "TEXT")], [⟨0, [], []⟩, ⟨5, [("f", .vText "y")], []⟩]⟩)]
    ⟨"C", [("f", "TEXT")], [], 0⟩ 5
    [("P", ⟨[], [⟨0, [], [("C", [])]⟩, ⟨1, [], [("C", [5])]⟩]⟩),
     ("C", ⟨[("f", "TEXT")], [⟨0, [], []⟩]⟩)] rfl
  refine ⟨⟨rfl, h.1.2.2.1 0 (by decide)⟩, ?_⟩
  exact h.2
      ⟨"P", [], ["C"], 0⟩ ⟨[], [⟨0, [], [("C", [])]⟩, ⟨1, [], [("C", [5])]⟩]⟩ 1
      ⟨1, [], [("C", [5])]⟩ "C" ⟨"C", [("f", "TEXT")], [], 0⟩
      ⟨[("f", "TEXT")], [⟨0, [], []⟩]⟩ 5 [] [] 3 rfl rfl rfl rfl rfl rfl

-- Validation gating, create_record, fetchall.

/-- C10: a record rejected by the validator makes `save_record` raise
`InvalidRecordError` carrying the diagnostic, with the backing store
returned completely unchanged — validation is the first step of
`save_record`, before any store access. -/
theorem c10_invalid_save_rejected (db : Db) (t : Table) (r : Record) (msg : String) (fuel : Nat)
    (h : isValidRecord db t r (fuel + 1) = .ok (false, msg)) :
    saveRecord db t r (fuel + 1) = (db, some (.invalidRecord msg)) := by
  simp only [saveRecord, h]

theorem c10_witness :
    isValidRecord [("Pet", ⟨[("name", "TEXT")], [⟨0, [], []⟩]⟩)]
        ⟨"Pet", [("name", "TEXT")], [], 0⟩ (.mk 1 [] []) 1 =
      .ok (false, "Pet requires 3 fields. 2 given.") ∧
    saveRecord [("Pet", ⟨[("name", "TEXT")], [⟨0, [], []⟩]⟩)]
        ⟨"Pet", [("name", "TEXT")], [], 0⟩ (.mk 1 [] []) 1 =
      ([("Pet", ⟨[("name", "TEXT")], [⟨0, [], []⟩]⟩)],
        some (.invalidRecord "Pet requires 3 fields. 2 given.")) :=
  ⟨rfl, c10_invalid_save_rejected [("Pet", ⟨[("name", "TEXT")], [⟨0, [], []⟩]⟩)]
    ⟨"Pet", [("name", "TEXT")], [], 0⟩ (.mk 1 [] []) "Pet requires 3 fields. 2 given." 0 rfl⟩

/-- C8 (amended): with the `subrecords` argument omitted, `create_record`
attaches the EMPTY children mapping — it does not fill one empty group
per declared child table.  On a table with no declared subtables it
allocates a fresh id (absent from the rows), performs no store write
(the function reads the store only), and returns the in-memory record;
on a table with declared subtables the empty mapping fails validation
(see the counterexample). -/
theorem c8_create_record_defaults (db : Db) (t : Table) (td : TableData)
    (flds : List (String × Value)) (fuel : Nat) (r : Record) (t2 : Table)
    (htd : alookup db t.name = some td)
    (hok : createRecord db t flds [] fuel = .ok (r, t2)) :
    ∃ i, r = .mk i flds [] ∧ getNextId db t fuel = .ok (i, t2) ∧
      ∀ rr ∈ td.rows, rr.rid ≠ i := by
  unfold createRecord at hok
  cases hnext : getNextId db t fuel with
  | error e => rw [hnext] at hok; cases hok
  | ok p =>
    obtain ⟨i, t3⟩ := p
    rw [hnext] at hok
    dsimp only at hok
    cases hv : isValidRecord db t3 (.mk i flds []) fuel with
    | error e => rw [hv] at hok; cases hok
    | ok q =>
      obtain ⟨ok?, msg⟩ := q
      rw [hv] at hok
      cases ok? with
      | false => cases hok
      | true =>
        cases hok
        refine ⟨i, rfl, rfl, ?_⟩
        unfold getNextId at hnext
        rw [htd] at hnext
        dsimp only at hnext
        cases hloop : nextIdLoop td.rows fuel t.maxId with
        | error e => rw [hloop] at hnext; cases hnext
        | ok p2 =>
          obtain ⟨v, c⟩ := p2
          rw [hloop] at hnext
          cases hnext
          intro rr hrr
          exact ((nextIdLoop_ok td.rows fuel t.maxId i c hloop).2.2 rr hrr).ne

theorem c8_witness :
    createRecord [("Pet", ⟨[("name", "TEXT")], [⟨0, [], []⟩]⟩)]
        ⟨"Pet", [("name", "TEXT")], [], 0⟩ [("name", .vText "Rex")] [] 3 =
      .ok (.mk 1 [("name", .vText "Rex")] [], ⟨"Pet", [("name", "TEXT")], [], 1⟩) ∧
    ∃ i, (Record.mk 1 [("name", .vText "Rex")] []) = .mk i [("name", .vText "Rex")] [] ∧
      getNextId [("Pet", ⟨[("name", "TEXT")], [⟨0, [], []⟩]⟩)]
          ⟨"Pet", [("name", "TEXT")], [], 0⟩ 3 = .ok (i, ⟨"Pet", [("name", "TEXT")], [], 1⟩) ∧
      ∀ rr ∈ [(⟨0, [], []⟩ : Row)], rr.rid ≠ i :=
  ⟨rfl, c8_create_record_defaults [("Pet", ⟨[("name", "TEXT")], [⟨0, [], []⟩]⟩)]
    ⟨"Pet", [("name", "TEXT")], [], 0⟩ ⟨[("name", "TEXT")], [⟨0, [], []⟩]⟩
    [("name", .vText "Rex")] 3 (.mk 1 [("name", .vText "Rex")] [])
    ⟨"Pet", [("name", "TEXT")], [], 1⟩ rfl rfl⟩

/-- C8 counterexample: on a table with a declared child table, omitting
the children (Python default `subrecords = dict()`) does NOT produce
empty groups per declared child table — validation rejects the record
and `create_record` raises InvalidRecordError instead of returning a
valid record. -/
theorem c8_counterexample :
    createRecord [("Owner", ⟨[("name", "TEXT")], [⟨0, [], [("Pet", [])]⟩]⟩)]
        ⟨"Owner", [("name", "TEXT")], ["Pet"], 0⟩ [("name", .vText "Ann")] [] 3 =
      .error (.invalidRecord "Owner requires 1 subtables defined. Received 0.") := by rfl

theorem find?_self_of_nodup (rows : List Row) (hnd : (rows.map Row.rid).Nodup) :
    ∀ row ∈ rows, rows.find? (fun r => r.rid == row.rid) = some row := by
  induction rows with
  | nil => intro row hr; simp at hr
  | cons q rest ih =>
    simp only [List.map_cons, List.nodup_cons] at hnd
    intro row hr
    rcases List.mem_cons.mp hr with h1 | h2
    · subst h1
      rw [List.find?_cons_of_pos _ (by simp)]
    · have hne : q.rid ≠ row.rid := by
        intro hh
        exact hnd.1 (hh ▸ List.mem_map_of_mem Row.rid h2)
      rw [List.find?_cons_of_neg _ (by simpa using hne)]
      exact ih hnd.2 row h2

theorem fetchRowsWith_forall₂ (db : Db) (t : Table) (td : TableData) (fuel : Nat)
    (htd : alookup db t.name = some td) :
    ∀ (rows : List Row) (l : List Record),
      (∀ row ∈ rows, td.rows.find? (fun r => r.rid == row.rid) = some row) →
      fetchRowsWith t (fun m => hydrateSubsWith (fun tn j =>
        match getTable db tn with
        | .error e => .error e
        | .ok tc => getRecord db tc j fuel) m) rows = .ok l →
      List.Forall₂ (fun (row : Row) (rec : Record) =>
        getRecord db t row.rid (fuel + 1) = .ok rec) rows l := by
  intro rows
  induction rows with
  | nil =>
    intro l _ h
    cases h
    exact List.Forall₂.nil
  | cons row rest ih =>
    intro l hmem h
    simp only [fetchRowsWith] at h
    cases hg : hydrateSubsWith (fun tn j =>
        match getTable db tn with
        | .error e => .error e
        | .ok tc => getRecord db tc j fuel) row.manifest with
    | error e => rw [hg] at h; cases h
    | ok subs =>
      rw [hg] at h
      cases hrest : fetchRowsWith t (fun m => hydrateSubsWith (fun tn j =>
        match getTable db tn with
        | .error e => .error e
        | .ok tc => getRecord db tc j fuel) m) rest with
      | error e => rw [hrest] at h; cases h
      | ok rs =>
        rw [hrest] at h
        cases h
        refine List.Forall₂.cons ?_ (ih rs (fun q hq => hmem q (List.mem_cons_of_mem row hq)) hrest)
        have hfind := hmem row (List.mem_cons_self row rest)
        simp only [getRecord, htd, hfind, hg]

/-- C4 (amended): `fetchall` hydrates EVERY row of the table, in
backing order, each element being exactly what `get_record` returns for
that row's id — including the reserved id-0 metadata row, which the
statement does not filter out. -/
theorem c4_fetchall_hydrates_all_rows (db : Db) (t : Table) (td : TableData)
    (fuel : Nat) (l : List Record)
    (hnd : (td.rows.map Row.rid).Nodup)
    (htd : alookup db t.name = some td)
    (hok : fetchall db t fuel = .ok l) :
    List.Forall₂ (fun (row : Row) (rec : Record) =>
      getRecord db t row.rid (fuel + 1) = .ok rec) td.rows l := by
  unfold fetchall at hok
  rw [htd] at hok
  exact fetchRowsWith_forall₂ db t td fuel htd td.rows l
    (find?_self_of_nodup td.rows hnd) hok

theorem c4_witness :
    fetchall [("Pet", ⟨[("name", "TEXT")], [⟨0, [], []⟩, ⟨1, [("name", .vText "Rex")], []⟩]⟩)]
        ⟨"Pet", [("name", "TEXT")], [], 0⟩ 2 =
      .ok [.mk 0 [("name", .vNull)] [], .mk 1 [("name", .vText "Rex")] []] ∧
    List.Forall₂ (fun (row : Row) (rec : Record) =>
        getRecord [("Pet", ⟨[("name", "TEXT")], [⟨0, [], []⟩, ⟨1, [("name", .vText "Rex")], []⟩]⟩)]
          ⟨"Pet", [("name", "TEXT")], [], 0⟩ row.rid 3 = .ok rec)
      [⟨0, [], []⟩, ⟨1, [("name", .vText "Rex")], []⟩]
      [.mk 0 [("name", .vNull)] [], .mk 1 [("name", .vText "Rex")] []] :=
  ⟨rfl, c4_fetchall_hydrates_all_rows
    [("Pet", ⟨[("name", "TEXT")], [⟨0, [], []⟩, ⟨1, [("name", .vText "Rex")], []⟩]⟩)]
    ⟨"Pet", [("name", "TEXT")], [], 0⟩
    ⟨[("name", "TEXT")], [⟨0, [], []⟩, ⟨1, [("name", .vText "Rex")], []⟩]⟩ 2
    [.mk 0 [("name", .vNull)] [], .mk 1 [("name", .vText "Rex")] []]
    (by decide) rfl rfl⟩

/-- C4 counterexample: on a freshly created table whose only row is the
id-0 metadata row, `fetchall` returns that row hydrated — the claim
that the result consists of exactly the rows with id ≠ 0 (here, none)
is false. -/
theorem c4_counterexample :
    fetchall [("Pet", ⟨[("name", "TEXT")], [⟨0, [], []⟩]⟩)]
        ⟨"Pet", [("name", "TEXT")], [], 0⟩ 2 =
      .ok [.mk 0 [("name", .vNull)] []] := by rfl

-- Content of the rows save_record writes.

theorem alookup_append {α : Type} (a b : List (String × α)) (k : String) :
    alookup (a ++ b) k =
      match alookup a k with
      | some v => some v
      | none => alookup b k := by
  induction a with
  | nil => simp [alookup]
  | cons p rest ih =>
    obtain ⟨k0, v0⟩ := p
    by_cases hk : k0 = k
    · simp [alookup, hk]
    · simp only [List.cons_append, alookup, if_neg hk]
      exact ih

theorem any_key_false_alookup_none {α : Type} (l : List (String × α)) (f : String)
    (h : l.any (fun p => p.1 == f) = false) : alookup l f = none := by
  induction l with
  | nil => rfl
  | cons p rest ih =>
    obtain ⟨k, v⟩ := p
    simp only [List.any_cons, Bool.or_eq_false_iff] at h
    have hk : k ≠ f := by simpa using h.1
    simp only [alookup, if_neg hk]
    exact ih h.2

theorem alookup_mapSet_self (vals : List (String × Value)) (f : String) (v : Value)
    (h : vals.any (fun p => p.1 == f) = true) :
    alookup (mapSet vals f v) f = some v := by
  induction vals with
  | nil => simp at h
  | cons p rest ih =>
    obtain ⟨k, w⟩ := p
    by_cases hk : k = f
    · simp [mapSet, hk, alookup]
    · simp only [List.any_cons] at h
      rcases Bool.or_eq_true_iff.mp h with h1 | h2
      · exact absurd (by simpa using h1) hk
      · simp only [mapSet, if_neg hk, alookup, if_neg hk]
        exact ih h2

theorem alookup_mapSet_ne (vals : List (String × Value)) (f : String) (v : Value)
    (f' : String) (hne : f' ≠ f) :
    alookup (mapSet vals f v) f' = alookup vals f' := by
  induction vals with
  | nil => rfl
  | cons p rest ih =>
    obtain ⟨k, w⟩ := p
    by_cases hk : k = f
    · have h1 : ¬ (f = f') := fun hh => hne hh.symm
      have h2 : ¬ (k = f') := fun hh => hne (by rw [← hh]; exact hk)
      simp only [mapSet, if_pos hk, alookup, if_neg h1, if_neg h2]
      exact ih
    · simp only [mapSet, if_neg hk, alookup]
      by_cases hkf : k = f'
      · simp [hkf]
      · simp only [if_neg hkf]
        exact ih

theorem alookup_setVal_self (vals : List (String × Value)) (f : String) (v : Value) :
    alookup (setVal vals f v) f = some v := by
  unfold setVal
  by_cases hany : vals.any (fun p => p.1 == f) = true
  · rw [if_pos hany]
    exact alookup_mapSet_self vals f v hany
  · rw [if_neg hany]
    rw [alookup_append]
    rw [any_key_false_alookup_none vals f (by simp only [Bool.not_eq_true] at hany; exact hany)]
    simp [alookup]

theorem alookup_setVal_ne (vals : List (String × Value)) (f : String) (v : Value)
    (f' : String) (hne : f' ≠ f) :
    alookup (setVal vals f v) f' = alookup vals f' := by
  unfold setVal
  by_cases hany : vals.any (fun p => p.1 == f) = true
  · rw [if_pos hany]
    exact alookup_mapSet_ne vals f v f' hne
  · rw [if_neg hany]
    rw [alookup_append]
    cases hv : alookup vals f' with
    | some w => rfl
    | none => simp [alookup, if_neg (fun hh : f = f' => hne hh.symm)]

theorem writeVals_not_mem (flds : List (String × Value)) :
    ∀ (acc : List (String × Value)) (f : String),
      (∀ p ∈ flds, p.1 ≠ f) →
      alookup (writeVals acc flds) f = alookup acc f := by
  induction flds with
  | nil => intro acc f _; rfl
  | cons p rest ih =>
    obtain ⟨g, w⟩ := p
    intro acc f h
    simp only [writeVals]
    rw [ih (setVal acc g w) f (fun q hq => h q (List.mem_cons_of_mem _ hq))]
    exact alookup_setVal_ne acc g w f (fun hh => h (g, w) (List.mem_cons_self _ _) hh.symm)

theorem alookup_writeVals (flds : List (String × Value)) :
    ∀ (acc : List (String × Value)) (f : String) (v : Value),
      nodupStr (flds.map Prod.fst) = true →
      alookup flds f = some v →
      alookup (writeVals acc flds) f = some v := by
  induction flds with
  | nil => intro acc f v _ h; simp [alookup] at h
  | cons p rest ih =>
    obtain ⟨f0, v0⟩ := p
    intro acc f v hnd h
    simp only [List.map_cons, nodupStr, Bool.and_eq_true] at hnd
    simp only [writeVals]
    by_cases hf : f0 = f
    · subst hf
      simp [alookup] at h
      subst h
      rw [writeVals_not_mem rest (setVal acc f0 v0) f0 ?hmem]
      · exact alookup_setVal_self acc f0 v0
      · intro q hq hh
        have hcont : (rest.map Prod.fst).contains f0 = true := by
          rw [List.contains_eq_any_beq]
          apply List.any_eq_true.mpr
          exact ⟨q.1, List.mem_map_of_mem Prod.fst hq, by simpa using hh.symm⟩
        rw [hcont] at hnd
        exact absurd hnd.1 (by decide)
    · simp only [alookup, if_neg hf] at h
      exact ih (setVal acc f0 v0) f v hnd.2 h

theorem find?_append_of_left_none {p : Row → Bool} (rows : List Row) (x : Row)
    (h : rows.find? p = none) :
    (rows ++ [x]).find? p = List.find? p [x] := by
  induction rows with
  | nil => rfl
  | cons q rest ih =>
    cases hq : p q with
    | true => rw [List.find?_cons_of_pos _ hq] at h; cases h
    | false =>
      rw [List.find?_cons_of_neg _ (by simp [hq])] at h
      rw [List.cons_append, List.find?_cons_of_neg _ (by simp [hq])]
      exact ih h

theorem map_update_find (rows : List Row) (i : Int) (flds : List (String × Value))
    (m : List (String × List Int))
    (h : rows.any (fun r => r.rid == i) = true) :
    ∃ r0, rows.find? (fun r => r.rid == i) = some r0 ∧
      (rows.map (fun r => if r.rid == i then (⟨r.rid, writeVals r.vals flds, m⟩ : Row) else r)).find?
          (fun r => r.rid == i) = some ⟨i, writeVals r0.vals flds, m⟩ := by
  induction rows with
  | nil => simp at h
  | cons q rest ih =>
    by_cases hq : q.rid = i
    · refine ⟨q, ?_, ?_⟩
      · rw [List.find?_cons_of_pos _ (by simpa using hq)]
      · simp only [List.map_cons, if_pos (by simpa using hq : (q.rid == i) = true)]
        rw [List.find?_cons_of_pos _ (by simpa using hq)]
        rw [hq]
    · simp only [List.any_cons] at h
      rcases Bool.or_eq_true_iff.mp h with h1 | h2
      · exact absurd (by simpa using h1) hq
      · obtain ⟨r0, hfind, hfind2⟩ := ih h2
        refine ⟨r0, ?_, ?_⟩
        · rw [List.find?_cons_of_neg _ (by simpa using hq)]
          exact hfind
        · simp only [List.map_cons, if_neg (by simpa using hq : ¬ (q.rid == i) = true)]
          rw [List.find?_cons_of_neg _ (by simpa using hq)]
          exact hfind2

theorem upsert_rowHolds (db : Db) (t : Table) (td : TableData) (i : Int)
    (flds : List (String × Value)) (m : List (String × List Int))
    (htd : alookup db t.name = some td)
    (hkeys : nodupStr (flds.map Prod.fst) = true) :
    rowHolds (dbSet db t.name ⟨td.cols, upsertRows td.rows i flds m⟩) t.name i flds m := by
  have hrow : rowAt (dbSet db t.name ⟨td.cols, upsertRows td.rows i flds m⟩) t.name i =
      (upsertRows td.rows i flds m).find? (fun r => r.rid == i) :=
    rowAt_dbSet_self db t.name ⟨td.cols, upsertRows td.rows i flds m⟩ td i htd
  unfold upsertRows at hrow ⊢
  by_cases hany : td.rows.any (fun r => r.rid == i) = true
  · rw [if_pos hany] at hrow ⊢
    obtain ⟨r0, _, hfind2⟩ := map_update_find td.rows i flds m hany
    refine ⟨⟨i, writeVals r0.vals flds, m⟩, ?_, rfl, rfl, ?_⟩
    · rw [hrow, hfind2]
    · intro f v hv
      exact alookup_writeVals flds r0.vals f v hkeys hv
  · rw [if_neg hany] at hrow ⊢
    have hnone : td.rows.find? (fun r => r.rid == i) = none := by
      apply List.find?_eq_none.mpr
      intro r hr
      intro hp
      exact hany (List.any_eq_true.mpr ⟨r, hr, hp⟩)
    refine ⟨⟨i, flds, m⟩, ?_, rfl, rfl, ?_⟩
    · rw [hrow, find?_append_of_left_none td.rows _ hnone]
      rw [List.find?_cons_of_pos _ (by simp)]
    · intro f v hv
      exact hv

-- The saved tree, wf preservation, update semantics.

theorem rowHolds_frame {db db2 : Db} {tn : String} {i : Int}
    {flds : List (String × Value)} {m : List (String × List Int)}
    (h : rowHolds db tn i flds m) (heq : rowAt db2 tn i = rowAt db tn i) :
    rowHolds db2 tn i flds m := by
  obtain ⟨row, h1, h2, h3, h4⟩ := h
  exact ⟨row, heq.trans h1, h2, h3, h4⟩

theorem rowSpecsL_cons (tn : String) (r : Record) (rs : List Record) :
    rowSpecsL tn (r :: rs) = rowSpecsR tn r ++ rowSpecsL tn rs := by
  simp [rowSpecsL]

theorem rowSpecsS_cons (tn : String) (l : List Record) (rest : List (String × List Record)) :
    rowSpecsS ((tn, l) :: rest) = rowSpecsL tn l ++ rowSpecsS rest := by
  simp [rowSpecsS]

theorem saveGroupWith_saved (g : Db → String → Record → Db × Option DbErr)
    (hgf : ∀ db tn rc, DbFrame (savePairs tn rc) db (g db tn rc).1)
    (hgs : ∀ db tn rc db2, g db tn rc = (db2, none) → (savePairs tn rc).Nodup →
      wfRec rc = true → savedTree db2 tn rc) :
    ∀ (l : List Record) (db db' : Db) (tn : String),
      saveGroupWith g db tn l = (db', none) →
      (pairsOf (rowSpecsL tn l)).Nodup → wfRecList l = true →
      ∀ s ∈ rowSpecsL tn l, rowHolds db' s.tbl s.sid s.flds s.man := by
  intro l
  induction l with
  | nil =>
    intro db db' tn h hnd hwf s hs
    simp [rowSpecsL] at hs
  | cons r rs ih =>
    intro db db' tn h hnd hwf s hs
    simp only [saveGroupWith] at h
    cases hg1 : g db tn r with
    | mk db2 e =>
      cases e with
      | some err => rw [hg1] at h; cases h
      | none =>
        rw [hg1] at h
        dsimp only at h
        rw [rowSpecsL_cons, pairsOf_append] at hnd
        rw [List.nodup_append] at hnd
        simp only [wfRecList, Bool.and_eq_true] at hwf
        rw [rowSpecsL_cons] at hs
        rcases List.mem_append.mp hs with hsl | hsr
        · have hsaved := hgs db tn r db2 hg1 hnd.1 hwf.1 s hsl
          have hframe := saveGroupWith_frame g hgf rs db2 tn
          rw [h] at hframe
          apply rowHolds_frame hsaved
          apply hframe.2.2
          intro hmem
          have hpl : (s.tbl, s.sid) ∈ pairsOf (rowSpecsR tn r) :=
            List.mem_map_of_mem (fun s => (s.tbl, s.sid)) hsl
          exact hnd.2.2 hpl hmem
        · exact ih db2 db' tn h hnd.2.1 hwf.2 s hsr

theorem saveSubsWith_saved (g : Db → String → Record → Db × Option DbErr)
    (hgf : ∀ db tn rc, DbFrame (savePairs tn rc) db (g db tn rc).1)
    (hgs : ∀ db tn rc db2, g db tn rc = (db2, none) → (savePairs tn rc).Nodup →
      wfRec rc = true → savedTree db2 tn rc) :
    ∀ (subs : List (String × List Record)) (db db' : Db),
      saveSubsWith g db subs = (db', none) →
      (pairsOf (rowSpecsS subs)).Nodup → wfSubs subs = true →
      ∀ s ∈ rowSpecsS subs, rowHolds db' s.tbl s.sid s.flds s.man := by
  intro subs
  induction subs with
  | nil =>
    intro db db' h hnd hwf s hs
    simp [rowSpecsS] at hs
  | cons p rest ih =>
    obtain ⟨tn, l⟩ := p
    intro db db' h hnd hwf s hs
    simp only [saveSubsWith] at h
    cases hg1 : saveGroupWith g db tn l with
    | mk db2 e =>
      cases e with
      | some err => rw [hg1] at h; cases h
      | none =>
        rw [hg1] at h
        dsimp only at h
        rw [rowSpecsS_cons, pairsOf_append] at hnd
        rw [List.nodup_append] at hnd
        simp only [wfSubs, Bool.and_eq_true] at hwf
        rw [rowSpecsS_cons] at hs
        rcases List.mem_append.mp hs with hsl | hsr
        · have hsaved := saveGroupWith_saved g hgf hgs l db db2 tn hg1 hnd.1 hwf.1 s hsl
          have hframe := saveSubsWith_frame g hgf rest db2
          rw [h] at hframe
          apply rowHolds_frame hsaved
          apply hframe.2.2
          intro hmem
          have hpl : (s.tbl, s.sid) ∈ pairsOf (rowSpecsL tn l) :=
            List.mem_map_of_mem (fun s => (s.tbl, s.sid)) hsl
          exact hnd.2.2 hpl hmem
        · exact ih db2 db' h hnd.2.1 hwf.2 s hsr

theorem saveRecord_saved :
    ∀ (fuel : Nat) (db : Db) (t : Table) (r : Record) (db' : Db),
      saveRecord db t r fuel = (db', none) →
      (savePairs t.name r).Nodup → wfRec r = true →
      savedTree db' t.name r := by
  intro fuel
  induction fuel with
  | zero =>
    intro db t r db' h
    simp only [saveRecord] at h
    cases h
  | succ fuel ih =>
    intro db t r db' h hnd hwf
    simp only [saveRecord] at h
    cases hv : isValidRecord db t r (fuel + 1) with
    | error e => rw [hv] at h; cases h
    | ok p =>
      obtain ⟨ok?, msg⟩ := p
      cases ok? with
      | false => rw [hv] at h; cases h
      | true =>
        rw [hv] at h
        cases htd : alookup db t.name with
        | none => rw [htd] at h; cases h
        | some td =>
          rw [htd] at h
          cases r with
          | mk i flds subs =>
            simp only [Record.rid, Record.rfields, Record.subs] at h
            have hgf : ∀ dbc tn rc, DbFrame (savePairs tn rc) dbc
                ((match getTable dbc tn with
                  | .error e => (dbc, some e)
                  | .ok tc => saveRecord dbc tc rc fuel) : Db × Option DbErr).1 := by
              intro dbc tn rc
              cases hgt : getTable dbc tn with
              | error e => simp only [hgt]; exact dbFrame_refl _ dbc
              | ok tc =>
                simp only [hgt]
                have := saveRecord_frame fuel dbc tc rc
                rwa [getTable_ok_name dbc tn tc hgt] at this
            have hgs : ∀ dbc tn rc db2,
                ((match getTable dbc tn with
                  | .error e => (dbc, some e)
                  | .ok tc => saveRecord dbc tc rc fuel) : Db × Option DbErr) = (db2, none) →
                (savePairs tn rc).Nodup → wfRec rc = true → savedTree db2 tn rc := by
              intro dbc tn rc db2 hg hnd2 hwf2
              cases hgt : getTable dbc tn with
              | error e => rw [hgt] at hg; cases hg
              | ok tc =>
                rw [hgt] at hg
                have := ih dbc tc rc db2 hg (by rwa [getTable_ok_name dbc tn tc hgt]) hwf2
                rwa [getTable_ok_name dbc tn tc hgt] at this
            simp only [wfRec, Bool.and_eq_true] at hwf
            have hold : rowHolds (dbSet db t.name ⟨td.cols, upsertRows td.rows i flds (manifestOf subs)⟩)
                t.name i flds (manifestOf subs) :=
              upsert_rowHolds db t td i flds (manifestOf subs) htd hwf.1.1
            have hpairs : savePairs t.name (Record.mk i flds subs) =
                (t.name, i) :: pairsOf (rowSpecsS subs) := by
              simp [savePairs, rowSpecsR, pairsOf]
            rw [hpairs, List.nodup_cons] at hnd
            intro s hs
            simp only [rowSpecsR] at hs
            rcases List.mem_cons.mp hs with hs1 | hs2
            · subst hs1
              have hframe := saveSubsWith_frame _ hgf subs
                (dbSet db t.name ⟨td.cols, upsertRows td.rows i flds (manifestOf subs)⟩)
              rw [h] at hframe
              exact rowHolds_frame hold (hframe.2.2 t.name i hnd.1)
            · exact saveSubsWith_saved _ hgf hgs subs _ db' h hnd.2 hwf.2 s hs2

theorem alookup_mem {α : Type} (l : List (String × α)) (n : String) (v : α)
    (h : alookup l n = some v) : (n, v) ∈ l := by
  induction l with
  | nil => simp [alookup] at h
  | cons p rest ih =>
    obtain ⟨k, w⟩ := p
    by_cases hk : k = n
    · subst hk
      simp [alookup] at h
      subst h
      exact List.mem_cons_self _ _
    · simp only [alookup, if_neg hk] at h
      exact List.mem_cons_of_mem _ (ih h)

theorem mem_dbSet (db : Db) (n : String) (td : TableData) :
    ∀ p ∈ dbSet db n td, p ∈ db ∨ p = (n, td) := by
  induction db with
  | nil => intro p hp; simp [dbSet] at hp
  | cons q rest ih =>
    obtain ⟨k, v⟩ := q
    intro p hp
    by_cases hk : k = n
    · simp only [dbSet, if_pos hk] at hp
      rcases List.mem_cons.mp hp with h1 | h2
      · exact Or.inr h1
      · rcases ih p h2 with h3 | h4
        · exact Or.inl (List.mem_cons_of_mem _ h3)
        · exact Or.inr h4
    · simp only [dbSet, if_neg hk] at hp
      rcases List.mem_cons.mp hp with h1 | h2
      · exact Or.inl (h1 ▸ List.mem_cons_self _ _)
      · rcases ih p h2 with h3 | h4
        · exact Or.inl (List.mem_cons_of_mem _ h3)
        · exact Or.inr h4

theorem wfDb_iff (db : Db) :
    wfDb db = true ↔ (db.map Prod.fst).Nodup ∧ ∀ p ∈ db, wfTableData p.2 = true := by
  unfold wfDb
  simp [List.all_eq_true]

theorem wfTableData_iff (td : TableData) :
    wfTableData td = true ↔ (td.rows.map Row.rid).Nodup ∧ (td.cols.map Prod.fst).Nodup := by
  unfold wfTableData
  simp

theorem wfDb_alookup (db : Db) (n : String) (td : TableData)
    (hwf : wfDb db = true) (h : alookup db n = some td) : wfTableData td = true :=
  ((wfDb_iff db).mp hwf).2 (n, td) (alookup_mem db n td h)

theorem map_rid_update (rows : List Row) (i : Int) (flds : List (String × Value))
    (m : List (String × List Int)) :
    ((rows.map (fun r => if r.rid == i then (⟨r.rid, writeVals r.vals flds, m⟩ : Row) else r)).map Row.rid) =
      rows.map Row.rid := by
  induction rows with
  | nil => rfl
  | cons q rest ih =>
    simp only [List.map_cons]
    by_cases hq : q.rid = i
    · rw [if_pos (by simpa using hq), ih]
    · rw [if_neg (by simpa using hq), ih]

theorem upsert_wf (rows : List Row) (i : Int) (flds : List (String × Value))
    (m : List (String × List Int)) (hnd : (rows.map Row.rid).Nodup) :
    ((upsertRows rows i flds m).map Row.rid).Nodup := by
  unfold upsertRows
  by_cases hany : rows.any (fun r => r.rid == i) = true
  · rw [if_pos hany, map_rid_update]
    exact hnd
  · rw [if_neg hany]
    rw [List.map_append]
    rw [List.nodup_append]
    refine ⟨hnd, by simp, ?_⟩
    intro a ha
    simp only [List.map_cons, List.map_nil, List.mem_singleton]
    intro hai
    subst hai
    rcases List.mem_map.mp ha with ⟨r, hr, hri⟩
    exact hany (List.any_eq_true.mpr ⟨r, hr, by simpa using hri⟩)

theorem wfDb_dbSet (db : Db) (n : String) (td : TableData)
    (hwf : wfDb db = true) (htd : wfTableData td = true) :
    wfDb (dbSet db n td) = true := by
  rw [wfDb_iff] at hwf ⊢
  refine ⟨by rw [names_dbSet]; exact hwf.1, ?_⟩
  intro p hp
  rcases mem_dbSet db n td p hp with h1 | h2
  · exact hwf.2 p h1
  · rw [h2]
    exact htd

theorem saveGroupWith_pres (g : Db → String → Record → Db × Option DbErr)
    (P : Db → Prop) (hg : ∀ db tn rc, P db → P ((g db tn rc).1)) :
    ∀ (l : List Record) (db : Db) (tn : String), P db → P ((saveGroupWith g db tn l).1) := by
  intro l
  induction l with
  | nil => intro db tn h; exact h
  | cons r rs ih =>
    intro db tn h
    simp only [saveGroupWith]
    cases hg1 : g db tn r with
    | mk db2 e =>
      have h2 : P db2 := by
        have := hg db tn r h
        rwa [hg1] at this
      cases e with
      | some err => exact h2
      | none => exact ih db2 tn h2

theorem saveSubsWith_pres (g : Db → String → Record → Db × Option DbErr)
    (P : Db → Prop) (hg : ∀ db tn rc, P db → P ((g db tn rc).1)) :
    ∀ (subs : List (String × List Record)) (db : Db), P db → P ((saveSubsWith g db subs).1) := by
  intro subs
  induction subs with
  | nil => intro db h; exact h
  | cons p rest ih =>
    obtain ⟨tn, l⟩ := p
    intro db h
    simp only [saveSubsWith]
    cases hg1 : saveGroupWith g db tn l with
    | mk db2 e =>
      have h2 : P db2 := by
        have := saveGroupWith_pres g P hg l db tn h
        rwa [hg1] at this
      cases e with
      | some err => exact h2
      | none => exact ih db2 h2

theorem saveRecord_wfDb :
    ∀ (fuel : Nat) (db : Db) (t : Table) (r : Record),
      wfDb db = true → wfDb ((saveRecord db t r fuel).1) = true := by
  intro fuel
  induction fuel with
  | zero => intro db t r h; exact h
  | succ fuel ih =>
    intro db t r h
    simp only [saveRecord]
    cases hv : isValidRecord db t r (fuel + 1) with
    | error e => exact h
    | ok p =>
      obtain ⟨ok?, msg⟩ := p
      cases ok? with
      | false => exact h
      | true =>
        cases htd : alookup db t.name with
        | none => exact h
        | some td =>
          have htdwf := wfDb_alookup db t.name td h htd
          rw [wfTableData_iff] at htdwf
          have h2 : wfDb (dbSet db t.name ⟨td.cols, upsertRows td.rows r.rid r.rfields (manifestOf r.subs)⟩) = true := by
            apply wfDb_dbSet db t.name _ h
            rw [wfTableData_iff]
            exact ⟨upsert_wf td.rows r.rid r.rfields (manifestOf r.subs) htdwf.1, htdwf.2⟩
          exact saveSubsWith_pres _ (fun d => wfDb d = true)
            (by
              intro dbc tn rc hc
              cases hgt : getTable dbc tn with
              | error e => simpa [hgt] using hc
              | ok tc =>
                simp only [hgt]
                exact ih dbc tc rc hc)
            r.subs _ h2

theorem length_filter_eq_one (rows : List Row) (i : Int)
    (hnd : (rows.map Row.rid).Nodup)
    (r0 : Row) (hr0 : r0 ∈ rows) (hr0i : r0.rid = i) :
    (rows.filter (fun r => r.rid == i)).length = 1 := by
  induction rows with
  | nil => simp at hr0
  | cons q rest ih =>
    simp only [List.map_cons, List.nodup_cons] at hnd
    by_cases hq : q.rid = i
    · rw [List.filter_cons_of_pos (by simpa using hq)]
      have hrest : rest.filter (fun r => r.rid == i) = [] := by
        apply List.filter_eq_nil_iff.mpr
        intro r hr hri
        apply hnd.1
        rw [hq, ← show r.rid = i by simpa using hri]
        exact List.mem_map_of_mem Row.rid hr
      simp [hrest]
    · rcases List.mem_cons.mp hr0 with h1 | h2
      · exact absurd (h1 ▸ hr0i) hq
      · rw [List.filter_cons_of_neg (by simpa using hq)]
        exact ih hnd.2 h2

/-- C7 (amended): saving a valid record whose id already has a row (and
whose tree writes pairwise-distinct rows) UPDATES in place: afterwards
the table holds exactly one row at that id, carrying the record's new
field values and manifest, not a duplicate row.  The distinctness side
condition is forced: a tree that writes the same (table, id) twice
(e.g. a self-referencing subtable) leaves the later write's values
instead (see the counterexample). -/
theorem c7_save_is_update (db : Db) (t : Table) (r : Record) (fuel : Nat) (db' : Db)
    (td : TableData)
    (hwf : wfDb db = true)
    (hnd : (savePairs t.name r).Nodup)
    (hwr : wfRec r = true)
    (_htd : alookup db t.name = some td)
    (hex : td.rows.any (fun row => row.rid == r.rid) = true)
    (hok : saveRecord db t r fuel = (db', none)) :
    ∃ td', alookup db' t.name = some td' ∧
      (td'.rows.filter (fun row => row.rid == r.rid)).length = 1 ∧
      ∃ row, td'.rows.find? (fun row => row.rid == r.rid) = some row ∧
        row.manifest = manifestOf r.subs ∧
        ∀ f v, alookup r.rfields f = some v → alookup row.vals f = some v := by
  have hsaved := saveRecord_saved fuel db t r db' hok hnd hwr
  have hwf' : wfDb db' = true := by
    have := saveRecord_wfDb fuel db t r hwf
    rwa [hok] at this
  cases r with
  | mk i flds subs =>
    have hhead : rowHolds db' t.name i flds (manifestOf subs) :=
      hsaved ⟨t.name, i, flds, manifestOf subs⟩ (by simp [rowSpecsR])
    obtain ⟨row, hrow, hrid, hman, hvals⟩ := hhead
    unfold rowAt at hrow
    cases htd' : alookup db' t.name with
    | none => rw [htd'] at hrow; cases hrow
    | some td' =>
      rw [htd'] at hrow
      refine ⟨td', rfl, ?_, row, hrow, hman, hvals⟩
      have htdwf' := wfDb_alookup db' t.name td' hwf' htd'
      rw [wfTableData_iff] at htdwf'
      exact length_filter_eq_one td'.rows i htdwf'.1 row
        (List.mem_of_find?_eq_some hrow) hrid

/-- C7 counterexample: with table T2 declared as its own subtable, the
valid record (id 1, f = "new") carrying a child (id 1, f = "other") in
T2 has its row written and then overwritten by the child's save: after
a successful save the single row at id 1 holds "other", not the new
field value "new" of the saved record. -/
theorem c7_counterexample :
    saveRecord
        [("T2", ⟨[("f", "TEXT")], [⟨0, [], [("T2", [])]⟩, ⟨1, [("f", .vText "old")], [("T2", [])]⟩]⟩)]
        ⟨"T2", [("f", "TEXT")], ["T2"], 0⟩
        (.mk 1 [("f", .vText "new")] [("T2", [.mk 1 [("f", .vText "other")] [("T2", [])]])]) 6 =
      ([("T2", ⟨[("f", "TEXT")], [⟨0, [], [("T2", [])]⟩, ⟨1, [("f", .vText "other")], [("T2", [])]⟩]⟩)], none) ∧
    alookup (Record.mk 1 [("f", .vText "new")] [("T2", [.mk 1 [("f", .vText "other")] [("T2", [])]])]).rfields "f" =
      some (.vText "new") ∧
    rowAt [("T2", ⟨[("f", "TEXT")], [⟨0, [], [("T2", [])]⟩, ⟨1, [("f", .vText "other")], [("T2", [])]⟩]⟩)] "T2" 1 =
      some ⟨1, [("f", .vText "other")], [("T2", [])]⟩ ∧
    Value.vText "other" ≠ Value.vText "new" :=
  ⟨rfl, rfl, rfl, by decide⟩

theorem c7_witness :
    saveRecord [("Pet", ⟨[("name", "TEXT")], [⟨0, [], []⟩, ⟨1, [("name", .vText "Rex")], []⟩]⟩)]
        ⟨"Pet", [("name", "TEXT")], [], 0⟩ (.mk 1 [("name", .vText "Sam")] []) 2 =
      ([("Pet", ⟨[("name", "TEXT")], [⟨0, [], []⟩, ⟨1, [("name", .vText "Sam")], []⟩]⟩)], none) ∧
    (∃ td', alookup ([("Pet", ⟨[("name", "TEXT")], [⟨0, [], []⟩, ⟨1, [("name", .vText "Sam")], []⟩]⟩)] : Db) "Pet" = some td' ∧
      (td'.rows.filter (fun row => row.rid == (Record.mk 1 [("name", .vText "Sam")] []).rid)).length = 1 ∧
      ∃ row, td'.rows.find? (fun row => row.rid == (Record.mk 1 [("name", .vText "Sam")] []).rid) = some row ∧
        row.manifest = manifestOf (Record.mk 1 [("name", .vText "Sam")] []).subs ∧
        ∀ f v, alookup (Record.mk 1 [("name", .vText "Sam")] []).rfields f = some v →
          alookup row.vals f = some v) :=
  ⟨rfl, c7_save_is_update
    [("Pet", ⟨[("name", "TEXT")], [⟨0, [], []⟩, ⟨1, [("name", .vText "Rex")], []⟩]⟩)]
    ⟨"Pet", [("name", "TEXT")], [], 0⟩ (.mk 1 [("name", .vText "Sam")] []) 2
    [("Pet", ⟨[("name", "TEXT")], [⟨0, [], []⟩, ⟨1, [("name", .vText "Sam")], []⟩]⟩)]
    ⟨[("name", "TEXT")], [⟨0, [], []⟩, ⟨1, [("name", .vText "Rex")], []⟩]⟩
    (by decide) (by decide) (by decide) rfl (by decide) rfl⟩

-- Support lemmas for the round trip.

theorem contains_false_not_mem (l : List String) (a : String)
    (h : l.contains a = false) : a ∉ l := by
  intro hmem
  have h2 : l.contains a = true := by
    rw [List.contains_eq_any_beq]
    exact List.any_eq_true.mpr ⟨a, hmem, by simp⟩
  rw [h] at h2
  cases h2

theorem nodupStr_nodup (l : List String) (h : nodupStr l = true) : l.Nodup := by
  induction l with
  | nil => exact List.nodup_nil
  | cons k ks ih =>
    simp only [nodupStr, Bool.and_eq_true, decide_eq_true_eq] at h
    exact List.nodup_cons.mpr ⟨contains_false_not_mem ks k h.1, ih h.2⟩

theorem alookup_eq_none_iff {α : Type} (l : List (String × α)) (n : String) :
    alookup l n = none ↔ n ∉ l.map Prod.fst := by
  induction l with
  | nil => simp [alookup]
  | cons p rest ih =>
    obtain ⟨k, v⟩ := p
    by_cases hk : k = n
    · simp [alookup, hk]
    · simp [alookup, hk, ih, Ne.symm hk]

theorem alookup_isSome_of_mem {α : Type} (l : List (String × α)) (n : String)
    (h : n ∈ l.map Prod.fst) : ∃ v, alookup l n = some v := by
  cases halk : alookup l n with
  | none => exact absurd h ((alookup_eq_none_iff l n).mp halk)
  | some v => exact ⟨v, rfl⟩

theorem alookup_some_mem_keys {α : Type} (l : List (String × α)) (n : String) (v : α)
    (h : alookup l n = some v) : n ∈ l.map Prod.fst :=
  List.mem_map_of_mem Prod.fst (alookup_mem l n v h)

theorem alookup_of_mem_nodup (l : List (String × Value)) (f : String) (v : Value)
    (hnd : nodupStr (l.map Prod.fst) = true) (hmem : (f, v) ∈ l) :
    alookup l f = some v := by
  induction l with
  | nil => simp at hmem
  | cons p rest ih =>
    obtain ⟨k, w⟩ := p
    simp only [List.map_cons, nodupStr, Bool.and_eq_true, decide_eq_true_eq] at hnd
    rcases List.mem_cons.mp hmem with h1 | h2
    · injection h1 with hf hv
      subst hf
      subst hv
      simp [alookup]
    · have hk : k ≠ f := by
        intro hh
        apply contains_false_not_mem _ _ hnd.1
        rw [hh]
        exact List.mem_map_of_mem Prod.fst h2
      simp only [alookup, if_neg hk]
      exact ih hnd.2 h2

theorem alookup_map_keyfun {β : Type} (l : List (String × β)) (g : String → Value)
    (f : String) (hmem : f ∈ l.map Prod.fst) :
    alookup (l.map (fun p => (p.1, g p.1))) f = some (g f) := by
  induction l with
  | nil => simp at hmem
  | cons p rest ih =>
    obtain ⟨k, v⟩ := p
    by_cases hk : k = f
    · subst hk
      simp [alookup]
    · simp only [List.map_cons, List.mem_cons] at hmem
      rcases hmem with h1 | h2
      · exact absurd h1.symm hk
      · simp only [List.map_cons, alookup, if_neg hk]
        exact ih h2

theorem keys_subset_of_checks (A B : List String)
    (hA : A.Nodup) (hB : B.Nodup) (hBA : ∀ b ∈ B, b ∈ A) (hlen : A.length = B.length) :
    ∀ a ∈ A, a ∈ B := by
  intro a ha
  have hsub : B.toFinset ⊆ A.toFinset := by
    intro x hx
    rw [List.mem_toFinset] at hx ⊢
    exact hBA x hx
  have hcard : A.toFinset.card ≤ B.toFinset.card := by
    rw [List.toFinset_card_of_nodup hA, List.toFinset_card_of_nodup hB]
    omega
  have := Finset.eq_of_subset_of_card_le hsub hcard
  rw [← List.mem_toFinset, ← this, List.mem_toFinset] at ha
  exact ha

theorem validGroup_extract (g : String → Record → Except DbErr (Bool × String)) (tn : String) :
    ∀ (l : List Record) (m : String),
      validGroupWith g tn l = .ok (true, m) →
      ∀ rc ∈ l, ∃ m', g tn rc = .ok (true, m') := by
  intro l
  induction l with
  | nil => intro m _ rc hrc; simp at hrc
  | cons r rs ih =>
    intro m h rc hrc
    simp only [validGroupWith] at h
    cases hg : g tn r with
    | error e => rw [hg] at h; cases h
    | ok p =>
      obtain ⟨ok?, m0⟩ := p
      cases ok? with
      | false => rw [hg] at h; cases h
      | true =>
        rw [hg] at h
        rcases List.mem_cons.mp hrc with h1 | h2
        · exact ⟨m0, h1 ▸ hg⟩
        · exact ih m h rc h2

theorem validSubs_extract (g : String → Record → Except DbErr (Bool × String)) (t : Table) :
    ∀ (subs : List (String × List Record)) (m : String),
      validSubsWith g t subs = .ok (true, m) →
      ∀ p ∈ subs, t.subtables.contains p.1 = true ∧
        ∀ rc ∈ p.2, ∃ m', g p.1 rc = .ok (true, m') := by
  intro subs
  induction subs with
  | nil => intro m _ p hp; simp at hp
  | cons q rest ih =>
    obtain ⟨tn, l⟩ := q
    intro m h p hp
    simp only [validSubsWith] at h
    by_cases hcont : t.subtables.contains tn = false
    · rw [if_pos hcont] at h
      cases h
    · rw [if_neg hcont] at h
      cases hg : validGroupWith g tn l with
      | error e => rw [hg] at h; cases h
      | ok p2 =>
        obtain ⟨ok?, m0⟩ := p2
        cases ok? with
        | false => rw [hg] at h; cases h
        | true =>
          rw [hg] at h
          rcases List.mem_cons.mp hp with h1 | h2
          · subst h1
            exact ⟨by simpa using hcont, validGroup_extract g tn l m0 hg⟩
          · exact ih m h p h2

theorem isValid_true_parts (db : Db) (h : Table) (r : Record) (vf : Nat) (m : String)
    (hv : isValidRecord db h r (vf + 1) = .ok (true, m)) :
    r.rfields.length = h.tfields.length ∧
    r.subs.length = h.subtables.length ∧
    fieldCheckMsg h r.rfields h.tfields = none ∧
    validSubsWith (fun tn rc =>
      match getTable db tn with
      | .error e => .error e
      | .ok tc => isValidRecord db tc rc vf) h r.subs = .ok (true, m) := by
  simp only [isValidRecord] at hv
  by_cases h1 : r.rfields.length ≠ h.tfields.length
  · rw [if_pos h1] at hv
    simp at hv
  · rw [if_neg h1] at hv
    by_cases h2 : r.subs.length ≠ h.subtables.length
    · rw [if_pos h2] at hv
      simp at hv
    · rw [if_neg h2] at hv
      cases hfc : fieldCheckMsg h r.rfields h.tfields with
      | some m0 => rw [hfc] at hv; simp at hv
      | none =>
        rw [hfc] at hv
        exact ⟨by omega, by omega, rfl, hv⟩

theorem fieldCheck_none_sound (t : Table) (flds : List (String × Value)) :
    ∀ (l : List (String × String)),
      fieldCheckMsg t flds l = none →
      ∀ p ∈ l, ∃ v, alookup flds p.1 = some v ∧ typeMatches p.2 v = true := by
  intro l
  induction l with
  | nil => intro _ p hp; simp at hp
  | cons q rest ih =>
    obtain ⟨f, ty⟩ := q
    intro h p hp
    simp only [fieldCheckMsg] at h
    cases halk : alookup flds f with
    | none =>
      rw [halk] at h
      exact Option.noConfusion h
    | some v =>
      rw [halk] at h
      dsimp only at h
      by_cases hty : typeMatches ty v = true
      · rw [if_pos hty] at h
        rcases List.mem_cons.mp hp with h1 | h2
        · subst h1
          exact ⟨v, halk, hty⟩
        · exact ih h p h2
      · rw [if_neg hty] at h
        exact Option.noConfusion h

theorem getTable_stable (db db2 : Db)
    (hnames : db2.map Prod.fst = db.map Prod.fst)
    (hcols : ∀ n, colsAt db2 n = colsAt db n)
    (hrow0 : ∀ n, rowAt db2 n 0 = rowAt db n 0) :
    ∀ nm, getTable db2 nm = getTable db nm := by
  intro nm
  cases halk : alookup db nm with
  | none =>
    have halk2 : alookup db2 nm = none := by
      rw [alookup_eq_none_iff] at halk ⊢
      rwa [hnames]
    simp [getTable, halk, halk2]
  | some td =>
    obtain ⟨td2, halk2⟩ := alookup_isSome_of_mem db2 nm (by
      rw [hnames]
      exact alookup_some_mem_keys db nm td halk)
    have hc : td2.cols = td.cols := by
      have := hcols nm
      unfold colsAt at this
      rw [halk, halk2] at this
      simpa using this
    have hr0 : td2.rows.find? (fun r => r.rid == 0) = td.rows.find? (fun r => r.rid == 0) := by
      have := hrow0 nm
      unfold rowAt at this
      rw [halk, halk2] at this
      exact this
    simp only [getTable, halk, halk2, hc, hr0]

theorem mem_rowSpecsL_of_mem (tn : String) (rc : Record) :
    ∀ (l : List Record), rc ∈ l → ∀ s ∈ rowSpecsR tn rc, s ∈ rowSpecsL tn l := by
  intro l
  induction l with
  | nil => intro h; simp at h
  | cons r rs ih =>
    intro hmem s hs
    rw [rowSpecsL_cons]
    rcases List.mem_cons.mp hmem with h1 | h2
    · exact List.mem_append_left _ (h1 ▸ hs)
    · exact List.mem_append_right _ (ih h2 s hs)

theorem mem_rowSpecsS_of_mem (tn : String) (l : List Record) :
    ∀ (subs : List (String × List Record)), (tn, l) ∈ subs →
      ∀ s ∈ rowSpecsL tn l, s ∈ rowSpecsS subs := by
  intro subs
  induction subs with
  | nil => intro h; simp at h
  | cons q rest ih =>
    obtain ⟨tn2, l2⟩ := q
    intro hmem s hs
    rw [rowSpecsS_cons]
    rcases List.mem_cons.mp hmem with h1 | h2
    · have : tn2 = tn ∧ l2 = l := by
        constructor <;> { cases h1; rfl }
      rcases this with ⟨ha, hb⟩
      subst ha; subst hb
      exact List.mem_append_left _ hs
    · exact List.mem_append_right _ (ih h2 s hs)

theorem wfRec_of_mem (tn : String) (l : List Record) (rc : Record)
    (hrc : rc ∈ l) :
    ∀ (subs : List (String × List Record)), (tn, l) ∈ subs → wfSubs subs = true →
      wfRec rc = true := by
  have hrl : ∀ (l2 : List Record), rc ∈ l2 → wfRecList l2 = true → wfRec rc = true := by
    intro l2
    induction l2 with
    | nil => intro h; simp at h
    | cons r rs ih =>
      intro hmem hwf
      simp only [wfRecList, Bool.and_eq_true] at hwf
      rcases List.mem_cons.mp hmem with h1 | h2
      · exact h1 ▸ hwf.1
      · exact ih h2 hwf.2
  intro subs
  induction subs with
  | nil => intro h; simp at h
  | cons q rest ih =>
    obtain ⟨tn2, l2⟩ := q
    intro hmem hwf
    simp only [wfSubs, Bool.and_eq_true] at hwf
    rcases List.mem_cons.mp hmem with h1 | h2
    · have : l2 = l := by cases h1; rfl
      subst this
      exact hrl l2 hrc hwf.1
    · exact ih h2 hwf.2

theorem depthL_ge (rc : Record) :
    ∀ (l : List Record), rc ∈ l → depthR rc ≤ depthL l := by
  intro l
  induction l with
  | nil => intro h; simp at h
  | cons r rs ih =>
    intro hmem
    rcases List.mem_cons.mp hmem with h1 | h2
    · subst h1
      simp [depthL, le_max_iff]
    · simp only [depthL]
      exact le_trans (ih h2) (le_max_right _ _)

theorem depthS_ge (tn : String) (l : List Record) :
    ∀ (subs : List (String × List Record)), (tn, l) ∈ subs → depthL l ≤ depthS subs := by
  intro subs
  induction subs with
  | nil => intro h; simp at h
  | cons q rest ih =>
    obtain ⟨tn2, l2⟩ := q
    intro hmem
    rcases List.mem_cons.mp hmem with h1 | h2
    · have : l2 = l := by cases h1; rfl
      subst this
      simp [depthS, le_max_iff]
    · simp only [depthS]
      exact le_trans (ih h2) (le_max_right _ _)

theorem depthR_pos (r : Record) : 1 ≤ depthR r := by
  cases r with
  | mk i flds subs => simp [depthR]

theorem subsIncl_cons_of_not_mem (tn : String) (l2 : List Record)
    (rest2 : List (String × List Record)) :
    ∀ (rest : List (String × List Record)),
      (∀ p ∈ rest, p.1 ≠ tn) →
      subsIncl rest rest2 = true →
      subsIncl rest ((tn, l2) :: rest2) = true := by
  intro rest
  induction rest with
  | nil => intro _ _; rfl
  | cons q more ih =>
    obtain ⟨tn2, lq⟩ := q
    intro hne h
    simp only [subsIncl, Bool.and_eq_true] at h ⊢
    refine ⟨?_, ih (fun p hp => hne p (List.mem_cons_of_mem _ hp)) h.2⟩
    have htn2 : tn2 ≠ tn := hne (tn2, lq) (List.mem_cons_self _ _)
    simp only [alookup, if_neg (fun hh : tn = tn2 => htn2 hh.symm)]
    exact h.1

theorem getTable_ok_parts (db : Db) (nm : String) (tc : Table)
    (h : getTable db nm = .ok tc) :
    ∃ td, alookup db nm = some td ∧
      tc = ⟨nm, td.cols.map (fun p => (p.1, pyUpper p.2)),
        (match td.rows.find? (fun r => r.rid == 0) with
         | none => []
         | some r0 => r0.manifest.map Prod.fst), 0⟩ := by
  unfold getTable at h
  cases halk : alookup db nm with
  | none => rw [halk] at h; cases h
  | some td =>
    rw [halk] at h
    dsimp only at h
    by_cases hall : (td.cols.map (fun p => (p.1, pyUpper p.2))).all (fun p => validTypeName p.2) = true
    · rw [if_pos hall] at h
      cases h
      exact ⟨td, rfl, rfl⟩
    · rw [if_neg hall] at h
      cases h

theorem nodup_nodupStr (l : List String) (h : l.Nodup) : nodupStr l = true := by
  induction l with
  | nil => rfl
  | cons k ks ih =>
    simp only [List.nodup_cons] at h
    simp only [nodupStr, Bool.and_eq_true, decide_eq_true_eq]
    refine ⟨?_, ih h.2⟩
    cases hc : ks.contains k with
    | false => rfl
    | true =>
      exfalso
      apply h.1
      rw [List.contains_eq_any_beq] at hc
      obtain ⟨x, hx, hbeq⟩ := List.any_eq_true.mp hc
      exact (show k = x by simpa using hbeq) ▸ hx

theorem getTable_keys_nodup (db : Db) (nm : String) (tc : Table)
    (hwf : wfDb db = true) (h : getTable db nm = .ok tc) :
    nodupStr (tc.tfields.map Prod.fst) = true := by
  obtain ⟨td, halk, htc⟩ := getTable_ok_parts db nm tc h
  have hcols := ((wfTableData_iff td).mp (wfDb_alookup db nm td hwf halk)).2
  subst htc
  have hkeys : (td.cols.map (fun p => (p.1, pyUpper p.2))).map Prod.fst = td.cols.map Prod.fst := by
    rw [List.map_map]
    rfl
  show nodupStr ((td.cols.map (fun p => (p.1, pyUpper p.2))).map Prod.fst) = true
  rw [hkeys]
  exact nodup_nodupStr _ hcols

-- Hydration round trip.

theorem hydrateGroup_rt (G : Int → Except DbErr Record) :
    ∀ (l : List Record),
      (∀ rc ∈ l, ∃ r2, G rc.rid = .ok r2 ∧ recordBeq rc r2 = true) →
      ∃ l2, hydrateGroupWith G (l.map Record.rid) = .ok l2 ∧ recListBeq l l2 = true := by
  intro l
  induction l with
  | nil => exact fun _ => ⟨[], rfl, rfl⟩
  | cons rc rs ih =>
    intro hrec
    obtain ⟨r2, hg, hbeq⟩ := hrec rc (List.mem_cons_self _ _)
    obtain ⟨l2, hgs, hbeqs⟩ := ih (fun q hq => hrec q (List.mem_cons_of_mem _ hq))
    refine ⟨r2 :: l2, ?_, ?_⟩
    · simp only [List.map_cons, hydrateGroupWith, hg, hgs]
    · simp only [recListBeq, Bool.and_eq_true]
      exact ⟨hbeq, hbeqs⟩

theorem hydrateSubs_rt (G : String → Int → Except DbErr Record) :
    ∀ (subs : List (String × List Record)),
      nodupStr (subs.map Prod.fst) = true →
      (∀ p ∈ subs, ∃ l2, hydrateGroupWith (G p.1) (p.2.map Record.rid) = .ok l2 ∧
        recListBeq p.2 l2 = true) →
      ∃ subs2, hydrateSubsWith G (manifestOf subs) = .ok subs2 ∧
        subs2.length = subs.length ∧ subsIncl subs subs2 = true := by
  intro subs
  induction subs with
  | nil => exact fun _ _ => ⟨[], rfl, rfl, rfl⟩
  | cons p rest ih =>
    obtain ⟨tn, l⟩ := p
    intro hnd hgrp
    simp only [List.map_cons, nodupStr, Bool.and_eq_true, decide_eq_true_eq] at hnd
    obtain ⟨l2, hg, hb⟩ := hgrp (tn, l) (List.mem_cons_self _ _)
    obtain ⟨rest2, hr, hrlen, hrincl⟩ := ih hnd.2 (fun q hq => hgrp q (List.mem_cons_of_mem _ hq))
    refine ⟨(tn, l2) :: rest2, ?_, by simp [hrlen], ?_⟩
    · dsimp only at hg
      simp only [manifestOf, List.map_cons, hydrateSubsWith] at hr ⊢
      rw [hg, hr]
    · simp only [subsIncl, Bool.and_eq_true]
      refine ⟨?_, ?_⟩
      · simp only [alookup, if_pos rfl]
        exact hb
      · apply subsIncl_cons_of_not_mem
        · intro q hq hcontra
          exact contains_false_not_mem _ _ hnd.1 (hcontra ▸ List.mem_map_of_mem Prod.fst hq)
        · exact hrincl

theorem fields_beq_hydrated (h : Table) (row : Row) (flds : List (String × Value))
    (hlen : flds.length = h.tfields.length)
    (hfc : fieldCheckMsg h flds h.tfields = none)
    (hfnd : nodupStr (flds.map Prod.fst) = true)
    (hhk : nodupStr (h.tfields.map Prod.fst) = true)
    (hvals : ∀ f v, alookup flds f = some v → alookup row.vals f = some v) :
    assocValBeq flds (hydrateFields h row) = true := by
  have hsub : ∀ a ∈ flds.map Prod.fst, a ∈ h.tfields.map Prod.fst := by
    apply keys_subset_of_checks (flds.map Prod.fst) (h.tfields.map Prod.fst)
      (nodupStr_nodup _ hfnd) (nodupStr_nodup _ hhk)
    · intro b hb
      obtain ⟨q, hq, hq1⟩ := List.mem_map.mp hb
      obtain ⟨v, hv, _⟩ := fieldCheck_none_sound h flds h.tfields hfc q hq
      exact hq1 ▸ alookup_some_mem_keys flds q.1 v hv
    · simp [hlen]
  unfold assocValBeq
  rw [Bool.and_eq_true]
  constructor
  · simp [hydrateFields, hlen]
  · apply List.all_eq_true.mpr
    intro p hp
    have hk : p.1 ∈ h.tfields.map Prod.fst :=
      hsub p.1 (List.mem_map_of_mem Prod.fst hp)
    have h1 : alookup (hydrateFields h row) p.1 = some (rowFieldVal row p.1) := by
      unfold hydrateFields
      exact alookup_map_keyfun h.tfields (rowFieldVal row) p.1 hk
    have h2 : alookup flds p.1 = some p.2 := alookup_of_mem_nodup flds p.1 p.2 hfnd hp
    have h3 : rowFieldVal row p.1 = p.2 := by
      unfold rowFieldVal
      rw [hvals p.1 p.2 h2]
      rfl
    rw [h1, h3]
    simp

theorem getRecord_roundtrip (db db2 : Db)
    (hst : ∀ nm, getTable db2 nm = getTable db nm)
    (hwfdb : wfDb db = true) :
    ∀ (gfuel : Nat) (r : Record) (h : Table),
      (∃ vf m, isValidRecord db h r vf = .ok (true, m)) →
      savedTree db2 h.name r →
      wfRec r = true →
      nodupStr (h.tfields.map Prod.fst) = true →
      depthR r ≤ gfuel →
      ∃ r2, getRecord db2 h r.rid gfuel = .ok r2 ∧ recordBeq r r2 = true := by
  intro gfuel
  induction gfuel with
  | zero =>
    intro r h _ _ _ _ hd
    have := depthR_pos r
    omega
  | succ gfuel ih =>
    intro r h hv hsaved hwr hhk hd
    obtain ⟨vf, m, hv⟩ := hv
    cases vf with
    | zero => simp [isValidRecord] at hv
    | succ vf =>
      cases r with
      | mk i flds subs =>
        obtain ⟨hlen, hslen, hfc, hvs⟩ := isValid_true_parts db h (.mk i flds subs) vf m hv
        simp only [Record.rid, Record.rfields, Record.subs] at hlen hslen hfc hvs ⊢
        have hhead : rowHolds db2 h.name i flds (manifestOf subs) :=
          hsaved ⟨h.name, i, flds, manifestOf subs⟩ (by simp [rowSpecsR])
        obtain ⟨row, hrowAt, hrid, hman, hvals⟩ := hhead
        unfold rowAt at hrowAt
        cases htd2 : alookup db2 h.name with
        | none => rw [htd2] at hrowAt; cases hrowAt
        | some td2 =>
          rw [htd2] at hrowAt
          dsimp only at hrowAt
          have hwrparts := hwr
          simp only [wfRec, Bool.and_eq_true] at hwrparts
          have hextract := validSubs_extract _ h subs m hvs
          have hgrp : ∀ p ∈ subs, ∃ l2,
              hydrateGroupWith ((fun tn j =>
                match getTable db2 tn with
                | .error e => .error e
                | .ok tc => getRecord db2 tc j gfuel) p.1) (p.2.map Record.rid) = .ok l2 ∧
              recListBeq p.2 l2 = true := by
            intro p hp
            apply hydrateGroup_rt
            intro rc hrc
            obtain ⟨hcont, hrecs⟩ := hextract p hp
            obtain ⟨m', hg0⟩ := hrecs rc hrc
            cases hgt : getTable db p.1 with
            | error e => rw [hgt] at hg0; cases hg0
            | ok tc =>
              rw [hgt] at hg0
              dsimp only at hg0
              have htcname : tc.name = p.1 := getTable_ok_name db p.1 tc hgt
              have hchild := ih rc tc ⟨vf, m', hg0⟩
                (by
                  intro s hs
                  apply hsaved
                  simp only [rowSpecsR]
                  apply List.mem_cons_of_mem
                  apply mem_rowSpecsS_of_mem p.1 p.2 subs (by
                    rcases p with ⟨p1, p2⟩; exact hp)
                  exact mem_rowSpecsL_of_mem p.1 rc p.2 hrc s (htcname ▸ hs))
                (wfRec_of_mem p.1 p.2 rc hrc subs (by rcases p with ⟨p1, p2⟩; exact hp) hwrparts.2)
                (getTable_keys_nodup db p.1 tc hwfdb hgt)
                (by
                  have hd1 : depthS subs + 1 ≤ gfuel + 1 := by
                    simpa [depthR] using hd
                  have hd2 := depthL_ge rc p.2 hrc
                  have hd3 := depthS_ge p.1 p.2 subs (by rcases p with ⟨p1, p2⟩; exact hp)
                  omega)
              obtain ⟨r2, hget, hbeq⟩ := hchild
              refine ⟨r2, ?_, hbeq⟩
              dsimp only
              rw [hst p.1, hgt]
              exact hget
          obtain ⟨subs2, hhyd, hlen2, hincl⟩ := hydrateSubs_rt
            (fun tn j =>
              match getTable db2 tn with
              | .error e => .error e
              | .ok tc => getRecord db2 tc j gfuel) subs hwrparts.1.2 hgrp
          refine ⟨.mk row.rid (hydrateFields h row) subs2, ?_, ?_⟩
          · simp only [getRecord, htd2, hrowAt, hman, hhyd]
          · have hfds := fields_beq_hydrated h row flds hlen hfc hwrparts.1.1 hhk hvals
            simp only [recordBeq, Bool.and_eq_true]
            refine ⟨⟨⟨by simp [hrid], hfds⟩, by simp [hlen2]⟩, hincl⟩

-- The build-save-get round trip.

theorem getNextId_ok_shape (db : Db) (t : Table) (fuel : Nat) (i : Int) (t2 : Table)
    (h : getNextId db t fuel = .ok (i, t2)) :
    t2.name = t.name ∧ t2.tfields = t.tfields ∧ t2.subtables = t.subtables := by
  unfold getNextId at h
  cases halk : alookup db t.name with
  | none => rw [halk] at h; cases h
  | some td =>
    rw [halk] at h
    dsimp only at h
    cases hloop : nextIdLoop td.rows fuel t.maxId with
    | error e => rw [hloop] at h; cases h
    | ok p =>
      obtain ⟨v, c⟩ := p
      rw [hloop] at h
      cases h
      exact ⟨rfl, rfl, rfl⟩

theorem createRecord_ok_parts (db : Db) (t : Table) (flds : List (String × Value))
    (subs : List (String × List Record)) (cfuel : Nat) (r : Record) (t2 : Table)
    (h : createRecord db t flds subs cfuel = .ok (r, t2)) :
    (∃ i, r = .mk i flds subs) ∧
    (∃ m, isValidRecord db t2 r cfuel = .ok (true, m)) ∧
    t2.name = t.name ∧ t2.tfields = t.tfields := by
  unfold createRecord at h
  cases hn : getNextId db t cfuel with
  | error e => rw [hn] at h; cases h
  | ok p =>
    obtain ⟨i, t3⟩ := p
    rw [hn] at h
    dsimp only at h
    cases hv : isValidRecord db t3 (.mk i flds subs) cfuel with
    | error e => rw [hv] at h; cases h
    | ok q =>
      obtain ⟨ok?, msg⟩ := q
      rw [hv] at h
      cases ok? with
      | false => cases h
      | true =>
        cases h
        obtain ⟨hn1, hn2, _⟩ := getNextId_ok_shape db t cfuel i t2 hn
        exact ⟨⟨i, rfl⟩, ⟨msg, hv⟩, hn1, hn2⟩

/-- C1 (amended): building a record with `create_record`, saving it,
and fetching it by the built record's id returns a Python-`==`-equal
record, PROVIDED the saved tree writes pairwise-distinct (table, id)
rows none of which is a reserved id-0 row.  The distinctness condition
is forced: two children of one child table sharing an id round-trip to
the later child's values (see the counterexample). -/
theorem c1_round_trip (db : Db) (t : Table) (flds : List (String × Value))
    (subs : List (String × List Record)) (cfuel sfuel gfuel : Nat)
    (r : Record) (t2 : Table) (db2 : Db)
    (hwfdb : wfDb db = true)
    (hhk : nodupStr (t.tfields.map Prod.fst) = true)
    (hcreate : createRecord db t flds subs cfuel = .ok (r, t2))
    (hwr : wfRec r = true)
    (hnd : (savePairs t.name r).Nodup)
    (hnz : ∀ p ∈ savePairs t.name r, p.2 ≠ 0)
    (hsave : saveRecord db t2 r sfuel = (db2, none))
    (hfuel : depthR r ≤ gfuel) :
    ∃ r2, getRecord db2 t2 r.rid gfuel = .ok r2 ∧ recordBeq r r2 = true := by
  obtain ⟨_, hvalid, hname, htf⟩ := createRecord_ok_parts db t flds subs cfuel r t2 hcreate
  have hsaved : savedTree db2 t2.name r := by
    apply saveRecord_saved sfuel db t2 r db2 hsave
    · rw [hname]
      exact hnd
    · exact hwr
  have hframe := saveRecord_frame sfuel db t2 r
  rw [hsave] at hframe
  have hst : ∀ nm, getTable db2 nm = getTable db nm := by
    apply getTable_stable db db2 hframe.1 hframe.2.1
    intro n
    apply hframe.2.2
    intro hmem
    rw [hname] at hmem
    exact hnz (n, 0) hmem rfl
  exact getRecord_roundtrip db db2 hst hwfdb gfuel r t2 ⟨cfuel, hvalid⟩ hsaved hwr
    (by rw [htf]; exact hhk) hfuel

theorem c1_witness :
    createRecord
        [("Owner", ⟨[("name", "TEXT")], [⟨0, [], [("Pet", [])]⟩]⟩),
         ("Pet", ⟨[("name", "TEXT"), ("age", "INTEGER")], [⟨0, [], []⟩]⟩)]
        ⟨"Owner", [("name", "TEXT")], ["Pet"], 0⟩ [("name", .vText "Ann")]
        [("Pet", [.mk 1 [("name", .vText "Rex"), ("age", .vInt 3)] [],
                  .mk 2 [("name", .vText "Moe"), ("age", .vInt 5)] []])] 5 =
      .ok (.mk 1 [("name", .vText "Ann")]
            [("Pet", [.mk 1 [("name", .vText "Rex"), ("age", .vInt 3)] [],
                      .mk 2 [("name", .vText "Moe"), ("age", .vInt 5)] []])],
           ⟨"Owner", [("name", "TEXT")], ["Pet"], 1⟩) ∧
    saveRecord
        [("Owner", ⟨[("name", "TEXT")], [⟨0, [], [("Pet", [])]⟩]⟩),
         ("Pet", ⟨[("name", "TEXT"), ("age", "INTEGER")], [⟨0, [], []⟩]⟩)]
        ⟨"Owner", [("name", "TEXT")], ["Pet"], 1⟩
        (.mk 1 [("name", .vText "Ann")]
          [("Pet", [.mk 1 [("name", .vText "Rex"), ("age", .vInt 3)] [],
                    .mk 2 [("name", .vText "Moe"), ("age", .vInt 5)] []])]) 6 =
      ([("Owner", ⟨[("name", "TEXT")],
          [⟨0, [], [("Pet", [])]⟩, ⟨1, [("name", .vText "Ann")], [("Pet", [1, 2])]⟩]⟩),
        ("Pet", ⟨[("name", "TEXT"), ("age", "INTEGER")],
          [⟨0, [], []⟩, ⟨1, [("name", .vText "Rex"), ("age", .vInt 3)], []⟩,
           ⟨2, [("name", .vText "Moe"), ("age", .vInt 5)], []⟩]⟩)], none) ∧
    ∃ r2, getRecord
        [("Owner", ⟨[("name", "TEXT")],
          [⟨0, [], [("Pet", [])]⟩, ⟨1, [("name", .vText "Ann")], [("Pet", [1, 2])]⟩]⟩),
         ("Pet", ⟨[("name", "TEXT"), ("age", "INTEGER")],
          [⟨0, [], []⟩, ⟨1, [("name", .vText "Rex"), ("age", .vInt 3)], []⟩,
           ⟨2, [("name", .vText "Moe"), ("age", .vInt 5)], []⟩]⟩)]
        ⟨"Owner", [("name", "TEXT")], ["Pet"], 1⟩
        (Record.mk 1 [("name", .vText "Ann")]
          [("Pet", [.mk 1 [("name", .vText "Rex"), ("age", .vInt 3)] [],
                    .mk 2 [("name", .vText "Moe"), ("age", .vInt 5)] []])]).rid 2 = .ok r2 ∧
      recordBeq
        (.mk 1 [("name", .vText "Ann")]
          [("Pet", [.mk 1 [("name", .vText "Rex"), ("age", .vInt 3)] [],
                    .mk 2 [("name", .vText "Moe"), ("age", .vInt 5)] []])]) r2 = true :=
  ⟨rfl, rfl,
    c1_round_trip
      [("Owner", ⟨[("name", "TEXT")], [⟨0, [], [("Pet", [])]⟩]⟩),
       ("Pet", ⟨[("name", "TEXT"), ("age", "INTEGER")], [⟨0, [], []⟩]⟩)]
      ⟨"Owner", [("name", "TEXT")], ["Pet"], 0⟩ [("name", .vText "Ann")]
      [("Pet", [.mk 1 [("name", .vText "Rex"), ("age", .vInt 3)] [],
                .mk 2 [("name", .vText "Moe"), ("age", .vInt 5)] []])] 5 6 2
      (.mk 1 [("name", .vText "Ann")]
        [("Pet", [.mk 1 [("name", .vText "Rex"), ("age", .vInt 3)] [],
                  .mk 2 [("name", .vText "Moe"), ("age", .vInt 5)] []])])
      ⟨"Owner", [("name", "TEXT")], ["Pet"], 1⟩
      [("Owner", ⟨[("name", "TEXT")],
        [⟨0, [], [("Pet", [])]⟩, ⟨1, [("name", .vText "Ann")], [("Pet", [1, 2])]⟩]⟩),
       ("Pet", ⟨[("name", "TEXT"), ("age", "INTEGER")],
        [⟨0, [], []⟩, ⟨1, [("name", .vText "Rex"), ("age", .vInt 3)], []⟩,
         ⟨2, [("name", .vText "Moe"), ("age", .vInt 5)], []⟩]⟩)]
      (by decide) (by decide) rfl (by decide) (by decide) (by decide) rfl (by decide)⟩

/-- C1 counterexample: with two children of the child table Pet sharing
id 1 (a record the validator accepts), create → save → get yields a
record whose two Pet children both carry the later child's values, so
it is not deep-equal to the built record: the claim fails without a
per-table id-distinctness condition. -/
theorem c1_counterexample :
    createRecord
        [("Owner", ⟨[("name", "TEXT")], [⟨0, [], [("Pet", [])]⟩]⟩),
         ("Pet", ⟨[("name", "TEXT"), ("age", "INTEGER")], [⟨0, [], []⟩]⟩)]
        ⟨"Owner", [("name", "TEXT")], ["Pet"], 0⟩ [("name", .vText "Ann")]
        [("Pet", [.mk 1 [("name", .vText "Rex"), ("age", .vInt 3)] [],
                  .mk 1 [("name", .vText "Moe"), ("age", .vInt 5)] []])] 5 =
      .ok (.mk 1 [("name", .vText "Ann")]
            [("Pet", [.mk 1 [("name", .vText "Rex"), ("age", .vInt 3)] [],
                      .mk 1 [("name", .vText "Moe"), ("age", .vInt 5)] []])],
           ⟨"Owner", [("name", "TEXT")], ["Pet"], 1⟩) ∧
    saveRecord
        [("Owner", ⟨[("name", "TEXT")], [⟨0, [], [("Pet", [])]⟩]⟩),
         ("Pet", ⟨[("name", "TEXT"), ("age", "INTEGER")], [⟨0, [], []⟩]⟩)]
        ⟨"Owner", [("name", "TEXT")], ["Pet"], 1⟩
        (.mk 1 [("name", .vText "Ann")]
          [("Pet", [.mk 1 [("name", .vText "Rex"), ("age", .vInt 3)] [],
                    .mk 1 [("name", .vText "Moe"), ("age", .vInt 5)] []])]) 6 =
      ([("Owner", ⟨[("name", "TEXT")],
          [⟨0, [], [("Pet", [])]⟩, ⟨1, [("name", .vText "Ann")], [("Pet", [1, 1])]⟩]⟩),
        ("Pet", ⟨[("name", "TEXT"), ("age", "INTEGER")],
          [⟨0, [], []⟩, ⟨1, [("name", .vText "Moe"), ("age", .vInt 5)], []⟩]⟩)], none) ∧
    getRecord
        [("Owner", ⟨[("name", "TEXT")],
          [⟨0, [], [("Pet", [])]⟩, ⟨1, [("name", .vText "Ann")], [("Pet", [1, 1])]⟩]⟩),
         ("Pet", ⟨[("name", "TEXT"), ("age", "INTEGER")],
          [⟨0, [], []⟩, ⟨1, [("name", .vText "Moe"), ("age", .vInt 5)], []⟩]⟩)]
        ⟨"Owner", [("name", "TEXT")], ["Pet"], 1⟩ 1 2 =
      .ok (.mk 1 [("name", .vText "Ann")]
            [("Pet", [.mk 1 [("name", .vText "Moe"), ("age", .vInt 5)] [],
                      .mk 1 [("name", .vText "Moe"), ("age", .vInt 5)] []])]) ∧
    recordBeq
      (.mk 1 [("name", .vText "Ann")]
        [("Pet", [.mk 1 [("name", .vText "Rex"), ("age", .vInt 3)] [],
                  .mk 1 [("name", .vText "Moe"), ("age", .vInt 5)] []])])
      (.mk 1 [("name", .vText "Ann")]
        [("Pet", [.mk 1 [("name", .vText "Moe"), ("age", .vInt 5)] [],
                  .mk 1 [("name", .vText "Moe"), ("age", .vInt 5)] []])]) = false :=
  ⟨rfl, rfl, rfl, by decide⟩

-- LIKE matching and the query tokenizer.

theorem likeMatch_pct (ps : List Char) (v : List Char) :
    likeMatch ('%' :: ps) v = v.tails.any (fun suf => likeMatch ps suf) := by
  simp [likeMatch]

theorem likeMatch_pct_nil (b : List Char) : likeMatch ['%'] b = true := by
  rw [likeMatch_pct]
  apply List.any_eq_true.mpr
  refine ⟨[], (List.mem_tails _ _).mpr List.nil_suffix, by simp [likeMatch]⟩

theorem likeMatch_trailing_pct :
    ∀ (kw : List Char), noWild kw →
      ∀ (b : List Char), (likeMatch (kw ++ ['%']) b = true ↔ lcs kw <+: lcs b) := by
  intro kw
  induction kw with
  | nil =>
    intro _ b
    simp [List.nil_append, likeMatch_pct_nil, lcs, List.nil_prefix]
  | cons c kw' ih =>
    intro hw b
    have hc := hw c (List.mem_cons_self _ _)
    have hw' : noWild kw' := fun d hd => hw d (List.mem_cons_of_mem _ hd)
    simp only [List.cons_append, likeMatch, if_neg hc.1, if_neg hc.2]
    cases b with
    | nil =>
      simp only [lcs, List.map_cons, List.map_nil]
      constructor
      · intro h; cases h
      · intro h
        have := List.prefix_nil.mp h
        cases this
    | cons d b' =>
      simp only [lcs, List.map_cons]
      rw [List.cons_prefix_cons]
      constructor
      · intro h
        rw [Bool.and_eq_true] at h
        exact ⟨by simpa using h.1, (ih hw' b').mp h.2⟩
      · intro h
        rw [Bool.and_eq_true]
        exact ⟨by simpa using h.1, (ih hw' b').mpr h.2⟩

theorem infix_lcs_suffix (kw : List Char) :
    ∀ (v : List Char), lcs kw <:+: lcs v →
      ∃ s, s <:+ v ∧ lcs kw <+: lcs s := by
  intro v
  induction v with
  | nil =>
    intro h
    refine ⟨[], List.suffix_rfl, ?_⟩
    have : lcs kw = [] := by
      have h2 := h.sublist
      simpa [lcs] using List.sublist_nil.mp (by simpa [lcs] using h2)
    rw [this]
    exact List.nil_prefix
  | cons c v' ih =>
    intro h
    rw [show lcs (c :: v') = asciiLowerChar c :: lcs v' from rfl] at h
    rcases List.infix_cons_iff.mp h with h1 | h2
    · exact ⟨c :: v', List.suffix_rfl,
        by rw [show lcs (c :: v') = asciiLowerChar c :: lcs v' from rfl]; exact h1⟩
    · obtain ⟨s, hs, hp⟩ := ih h2
      exact ⟨s, hs.trans (List.suffix_cons c v'), hp⟩

theorem likeMatch_substring (kw : List Char) (hw : noWild kw) (v : List Char) :
    likeMatch ('%' :: (kw ++ ['%'])) v = true ↔ lcs kw <:+: lcs v := by
  rw [likeMatch_pct]
  constructor
  · intro h
    obtain ⟨s, hs, hls⟩ := List.any_eq_true.mp h
    have hsuf : s <:+ v := (List.mem_tails _ _).mp hs
    have hpre : lcs kw <+: lcs s := (likeMatch_trailing_pct kw hw s).mp hls
    exact List.infix_iff_prefix_suffix.mpr ⟨lcs s, hpre, by
      simpa [lcs] using hsuf.map asciiLowerChar⟩
  · intro h
    obtain ⟨s, hsuf, hpre⟩ := infix_lcs_suffix kw v h
    exact List.any_eq_true.mpr ⟨s, (List.mem_tails _ _).mpr hsuf,
      (likeMatch_trailing_pct kw hw s).mpr hpre⟩

theorem mem_pyStrip (l : List Char) (x : Char) (h : x ∈ pyStrip l) : x ∈ l := by
  unfold pyStrip at h
  rw [List.mem_reverse] at h
  have h2 := (List.dropWhile_sublist isPySpace).subset h
  rw [List.mem_reverse] at h2
  exact (List.dropWhile_sublist isPySpace).subset h2

theorem getKeywords_chars :
    ∀ (fuel : Nat) (s : List Char) (toks : List (List Char)),
      getKeywords fuel s = .ok toks →
      ∀ tok ∈ toks, ∀ c ∈ tok, c ∈ s := by
  intro fuel
  induction fuel with
  | zero => intro s toks h; cases h
  | succ fuel ih =>
    intro s toks h tok htok c hc
    simp only [getKeywords] at h
    cases hs : pyStrip s with
    | nil => rw [hs] at h; cases h
    | cons c0 rest =>
      rw [hs] at h
      dsimp only at h
      have hmemS : ∀ x, x ∈ c0 :: rest → x ∈ s := by
        intro x hx
        apply mem_pyStrip s x
        rw [hs]
        exact hx
      by_cases hq : (c0 == '"' && decide ((c0 :: rest).count '"' > 1)) = true
      · rw [if_pos hq] at h
        cases hidx : rest.findIdx? (fun d => d == '"') with
        | none => rw [hidx] at h; cases h
        | some idx =>
          rw [hidx] at h
          dsimp only at h
          cases hrec : getKeywords fuel (rest.drop (idx + 1)) with
          | error e => rw [hrec] at h; cases h
          | ok toks2 =>
            rw [hrec] at h
            cases h
            rcases List.mem_cons.mp htok with h1 | h2
            · apply hmemS
              apply List.mem_cons_of_mem
              exact (List.take_sublist idx rest).subset (h1 ▸ hc)
            · have := ih (rest.drop (idx + 1)) toks2 hrec tok h2 c hc
              apply hmemS
              apply List.mem_cons_of_mem
              exact (List.drop_sublist (idx + 1) rest).subset this
      · rw [if_neg hq] at h
        by_cases hsp : (c0 :: rest).contains ' ' = true
        · rw [if_pos hsp] at h
          cases hloc : (c0 :: rest).findIdx? (fun d => d == ' ') with
          | none => rw [hloc] at h; cases h
          | some loc =>
            rw [hloc] at h
            dsimp only at h
            cases hrec : getKeywords fuel ((c0 :: rest).drop (loc + 1)) with
            | error e => rw [hrec] at h; cases h
            | ok toks2 =>
              rw [hrec] at h
              cases h
              rcases List.mem_cons.mp htok with h1 | h2
              · exact hmemS c ((List.take_sublist loc (c0 :: rest)).subset (h1 ▸ hc))
              · have := ih ((c0 :: rest).drop (loc + 1)) toks2 hrec tok h2 c hc
                exact hmemS c ((List.drop_sublist (loc + 1) (c0 :: rest)).subset this)
        · rw [if_neg hsp] at h
          cases h
          rcases List.mem_cons.mp htok with h1 | h2
          · exact hmemS c (h1 ▸ hc)
          · simp at h2

theorem getRecordsByIds_mem (db : Db) (t : Table) (fuel : Nat) :
    ∀ (ids : List Int) (recs : List Record),
      getRecordsByIds db t fuel ids = .ok recs →
      ∀ r2, (r2 ∈ recs ↔ ∃ i ∈ ids, getRecord db t i fuel = .ok r2) := by
  intro ids
  induction ids with
  | nil =>
    intro recs h r2
    cases h
    simp
  | cons i is ih =>
    intro recs h r2
    simp only [getRecordsByIds] at h
    cases hget : getRecord db t i fuel with
    | error e => rw [hget] at h; cases h
    | ok r =>
      rw [hget] at h
      cases hrec : getRecordsByIds db t fuel is with
      | error e => rw [hrec] at h; cases h
      | ok rs =>
        rw [hrec] at h
        cases h
        constructor
        · intro hmem
          rcases List.mem_cons.mp hmem with h1 | h2
          · exact ⟨i, List.mem_cons_self _ _, h1 ▸ hget⟩
          · obtain ⟨j, hj, hgj⟩ := (ih rs hrec r2).mp h2
            exact ⟨j, List.mem_cons_of_mem _ hj, hgj⟩
        · intro hex
          obtain ⟨j, hj, hgj⟩ := hex
          rcases List.mem_cons.mp hj with h1 | h2
          · subst h1
            rw [hget] at hgj
            cases hgj
            exact List.mem_cons_self _ _
          · exact List.mem_cons_of_mem _ ((ih rs hrec r2).mpr ⟨j, h2, hgj⟩)

/-- C6: characterisation of relative-mode `search_records` as the source
implements it.  Under a declared search field, a successful tokenization,
a wildcard-free query and text-or-NULL stored values, a record is in the
result exactly when some row of the table is not excluded, its searched
value contains some token or the whole query CASE-INSENSITIVELY (SQLite
LIKE with ASCII folding — not the case-sensitive containment the spec
states), and `get_record` hydrates that row to the record. -/
theorem c6_relative_search (db : Db) (t : Table) (fld query : String)
    (excl : List Int) (toks : List (List Char)) (td : TableData)
    (recs : List Record) (fuel : Nat)
    (hfld : (t.tfields.map Prod.fst).contains fld = true)
    (htok : getKeywords fuel query.data = .ok toks)
    (htd : alookup db t.name = some td)
    (hw : noWild query.data)
    (htext : ∀ row ∈ td.rows, rowFieldVal row fld = .vNull ∨
      ∃ s, rowFieldVal row fld = .vText s)
    (hrun : searchRecords db t fld query excl fuel = .ok recs)
    (r2 : Record) :
    r2 ∈ recs ↔ ∃ row ∈ td.rows,
      (∀ e ∈ excl, row.rid ≠ e) ∧
      (∃ s, rowFieldVal row fld = .vText s ∧ relMatch toks query.data s) ∧
      getRecord db t row.rid fuel = .ok r2 := by
  have hnwtok : ∀ kw, kw ∈ toks ++ [query.data] → noWild kw := by
    intro kw hkw
    rcases List.mem_append.mp hkw with h1 | h2
    · intro c hc
      exact hw c (getKeywords_chars fuel query.data toks htok kw h1 c hc)
    · have hq : kw = query.data := by simpa using h2
      subst hq
      exact hw
  unfold searchRecords at hrun
  rw [hfld] at hrun
  rw [if_neg (by decide : ¬ (true = false))] at hrun
  rw [htok, htd] at hrun
  rw [getRecordsByIds_mem db t fuel _ recs hrun r2]
  constructor
  · intro hex
    obtain ⟨i, hi, hget⟩ := hex
    obtain ⟨row, hrowf, hrid⟩ := List.mem_map.mp hi
    obtain ⟨hrow, hP⟩ := List.mem_filter.mp hrowf
    simp only [Bool.and_eq_true] at hP
    obtain ⟨hmatch, hexcl⟩ := hP
    obtain ⟨kw, hkw, hlike⟩ := List.any_eq_true.mp hmatch
    refine ⟨row, hrow, ?_, ?_, ?_⟩
    · intro e he
      have := List.all_eq_true.mp hexcl e he
      simpa using this
    · rcases htext row hrow with hnull | ⟨s, hs⟩
      · rw [hnull] at hlike
        simp [valueLike] at hlike
      · rw [hs] at hlike
        simp only [valueLike] at hlike
        exact ⟨s, hs, kw, hkw,
          (likeMatch_substring kw (hnwtok kw hkw) s.data).mp hlike⟩
    · rw [hrid]
      exact hget
  · intro hex
    obtain ⟨row, hrow, hne, ⟨s, hs, kw, hkw, hinf⟩, hget⟩ := hex
    refine ⟨row.rid, ?_, hget⟩
    apply List.mem_map.mpr
    refine ⟨row, List.mem_filter.mpr ⟨hrow, ?_⟩, rfl⟩
    simp only [Bool.and_eq_true]
    constructor
    · apply List.any_eq_true.mpr
      refine ⟨kw, hkw, ?_⟩
      rw [hs]
      simp only [valueLike]
      exact (likeMatch_substring kw (hnwtok kw hkw) s.data).mpr hinf
    · apply List.all_eq_true.mpr
      intro e he
      simpa using hne e he

/-- The searched table of the C6 witness: three data rows plus the id-0
metadata row. -/
def wdb6 : Db :=
  [("notes", ⟨[("id", "INTEGER"), ("value", "TEXT"), ("manifest", "TEXT")],
    [⟨0, [], []⟩,
     ⟨1, [("value", .vText "the red dog ran")], []⟩,
     ⟨2, [("value", .vText "a grey cat")], []⟩,
     ⟨3, [("value", .vText "nothing here")], []⟩]⟩)]

/-- Handle on the C6 witness table. -/
def wt6 : Table := ⟨"notes", [("value", "TEXT")], [], 0⟩

/-- The C6 witness query: a quoted phrase then a bare word. -/
def wq6 : String := "\"red dog\" cat"

/-- The records the C6 witness search returns. -/
def wrecs6 : List Record :=
  [.mk 1 [("value", .vText "the red dog ran")] [],
   .mk 2 [("value", .vText "a grey cat")] []]

theorem c6_witness :
    searchRecords wdb6 wt6 "value" wq6 [] 6 = .ok wrecs6 ∧
    Record.mk 1 [("value", Value.vText "the red dog ran")] [] ∈ wrecs6 ∧
    Record.mk 2 [("value", Value.vText "a grey cat")] [] ∈ wrecs6 := by
  have htext : ∀ row ∈ (⟨[("id", "INTEGER"), ("value", "TEXT"), ("manifest", "TEXT")],
      [⟨0, [], []⟩,
       ⟨1, [("value", .vText "the red dog ran")], []⟩,
       ⟨2, [("value", .vText "a grey cat")], []⟩,
       ⟨3, [("value", .vText "nothing here")], []⟩]⟩ : TableData).rows,
      rowFieldVal row "value" = .vNull ∨ ∃ s, rowFieldVal row "value" = .vText s := by
    intro row hrow
    simp only [List.mem_cons, List.not_mem_nil, or_false] at hrow
    rcases hrow with h | h | h | h
    · left; rw [h]; rfl
    · right; rw [h]; exact ⟨_, rfl⟩
    · right; rw [h]; exact ⟨_, rfl⟩
    · right; rw [h]; exact ⟨_, rfl⟩
  have hiff := c6_relative_search wdb6 wt6 "value" wq6 []
    ["red dog".data, "cat".data] _ wrecs6 6 rfl rfl rfl
    (by unfold noWild; decide) htext rfl
  refine ⟨rfl, ?_, ?_⟩
  · apply (hiff (.mk 1 [("value", .vText "the red dog ran")] [])).mpr
    refine ⟨⟨1, [("value", .vText "the red dog ran")], []⟩, by simp, ?_, ?_, rfl⟩
    · intro e he
      cases he
    · exact ⟨"the red dog ran", rfl, "red dog".data, by simp, by decide⟩
  · apply (hiff (.mk 2 [("value", .vText "a grey cat")] [])).mpr
    refine ⟨⟨2, [("value", .vText "a grey cat")], []⟩, by simp, ?_, ?_, rfl⟩
    · intro e he
      cases he
    · exact ⟨"a grey cat", rfl, "cat".data, by simp, by decide⟩

/-- The table of the C6 counterexample: one row whose value is `Cat`. -/
def cdb6 : Db :=
  [("pets", ⟨[("id", "INTEGER"), ("name", "TEXT"), ("manifest", "TEXT")],
    [⟨0, [], []⟩, ⟨1, [("name", .vText "Cat")], []⟩]⟩)]

/-- Handle on the C6 counterexample table. -/
def ct6 : Table := ⟨"pets", [("name", "TEXT")], [], 0⟩

/-- C6 counterexample: the query `cat` matches the stored value `Cat`
although `cat` is NOT a case-sensitive substring of `Cat` — the
source's `LIKE "%kw%"` folds ASCII case, refuting the spec's
"case-sensitive containment"; and searching the empty query raises
(Python `s[0]` IndexError in `_get_keywords`) instead of returning a
tokenization. -/
theorem c6_counterexample :
    searchRecords cdb6 ct6 "name" "cat" [] 4 =
      .ok [Record.mk 1 [("name", Value.vText "Cat")] []] ∧
    ¬ ("cat".data <:+: "Cat".data) ∧
    searchRecords cdb6 ct6 "name" "" [] 4 = .error DbErr.indexError := by
  exact ⟨rfl, by decide, rfl⟩
